import Mathlib

/-!
Verification of the eulex-build document resolution and extraction engine.

The definitions below are a shallow embedding of the Python sources:
  * `src/eulexbuild/utils.py` (text normalizer, CELEX identifier utilities),
  * `src/eulexbuild/data/cellar_restapi.py` (multi-choice document selection),
  * `src/eulexbuild/data/data_resolver.py` (DataResolver: titles, dates,
    document types, text-unit and relation extraction).

Strings are modelled as `List Char`; Python regular-expression passes are
translated into explicit left-to-right scans with the same non-overlapping
match semantics; network and parsing collaborators are modelled as oracle
functions returning `Except Unit _` (an `error` models a raised exception).
-/

/-- Whitespace characters of Python `str` semantics (`str.strip`, regex `\s`
for text patterns): ASCII whitespace plus the Unicode space characters. -/
def isPySpace (c : Char) : Bool :=
  c == ' ' || c == '\t' || c == '\n' || c == '\r' || c == '\u000B' || c == '\u000C' ||
  c == '\u001C' || c == '\u001D' || c == '\u001E' || c == '\u001F' || c == '\u0085' ||
  c == '\u00A0' || c == '\u1680' || c == '\u2000' || c == '\u2001' || c == '\u2002' ||
  c == '\u2003' || c == '\u2004' || c == '\u2005' || c == '\u2006' || c == '\u2007' ||
  c == '\u2008' || c == '\u2009' || c == '\u200A' || c == '\u2028' || c == '\u2029' ||
  c == '\u202F' || c == '\u205F' || c == '\u3000'

/-- The punctuation class of the first substitution in `normalize_string`:
`[,;:!?.)}\]]`. -/
def isPunct1 (c : Char) : Bool :=
  c == ',' || c == ';' || c == ':' || c == '!' || c == '?' || c == '.' ||
  c == ')' || c == '}' || c == ']'

/-- The punctuation class of the second substitution in `normalize_string`:
`[,;:!?.]`. -/
def isPunct2 (c : Char) : Bool :=
  c == ',' || c == ';' || c == ':' || c == '!' || c == '?' || c == '.'

/-- `re.sub(r'([,;:!?.)}\]])(\S)', r'\1 \2', text)`: a single left-to-right
scan; a match consumes both characters (non-overlapping matches), so the
second character of a match is not itself examined as a potential first
character. -/
def spaceAfterPunct : List Char → List Char
  | [] => []
  | [c] => [c]
  | c :: d :: rest =>
    if isPunct1 c && !isPySpace d then
      c :: ' ' :: d :: spaceAfterPunct rest
    else
      c :: spaceAfterPunct (d :: rest)

/-- `re.sub(r'\s+([,;:!?.])', r'\1', text)`: every whitespace character whose
next non-whitespace neighbour to the right is a `[,;:!?.]` character (with
only whitespace in between) is deleted.  A right fold implements this: a
space is dropped exactly when the already-processed tail starts with a
punct-2 character. -/
def stripSpaceBeforePunct (l : List Char) : List Char :=
  l.foldr (fun c acc =>
    if isPySpace c && acc.head?.any isPunct2 then acc else c :: acc) []

/-- Scanner for `re.sub(r'\s+', ' ', text)`: `inRun` records whether the
previous character belonged to a whitespace run whose single replacement
space has already been emitted. -/
def collapseGo : Bool → List Char → List Char
  | _, [] => []
  | inRun, c :: rest =>
    if isPySpace c then
      if inRun then collapseGo true rest else ' ' :: collapseGo true rest
    else c :: collapseGo false rest

/-- `re.sub(r'\s+', ' ', text)`: collapse every maximal whitespace run to a
single ASCII space. -/
def collapseWs (l : List Char) : List Char := collapseGo false l

/-- Left part of Python `str.strip()`. -/
def trimLeft (l : List Char) : List Char := l.dropWhile isPySpace

/-- Right part of Python `str.strip()`: drop trailing whitespace. -/
def trimRight : List Char → List Char
  | [] => []
  | c :: rest =>
    match trimRight rest with
    | [] => if isPySpace c then [] else [c]
    | r => c :: r

/-- Python `str.strip()` (no arguments): strip leading and trailing
whitespace. -/
def pyStrip (l : List Char) : List Char := trimRight (trimLeft l)

/-- `normalize_string` from `src/eulexbuild/utils.py`: the two punctuation
substitutions, whitespace collapsing, and a final `strip()`. -/
def normalizeL (l : List Char) : List Char :=
  pyStrip (collapseWs (stripSpaceBeforePunct (spaceAfterPunct l)))

/-- `normalize_string` on `String`. -/
def normalize_string (s : String) : String := ⟨normalizeL s.data⟩

/-! ### Infrastructure for reasoning about the normalizer

`chainB R l` states that every pair of adjacent characters of `l` satisfies
the boolean relation `R`. -/

def chainB (R : Char → Char → Bool) : List Char → Bool
  | [] => true
  | [_] => true
  | c :: d :: rest => R c d && chainB R (d :: rest)

/-- Every punct-1 character is immediately followed by whitespace or the end
of the string. -/
def punctSpaced : List Char → Bool :=
  chainB (fun c d => !(isPunct1 c && !isPySpace d))

/-- No whitespace character directly precedes a punct-2 character. -/
def noSpaceBeforeQ : List Char → Bool :=
  chainB (fun c d => !(isPySpace c && isPunct2 d))

/-- Every punct-1 character that is directly followed by a non-space
character is followed by a punct-2 character. -/
def adjPQ : List Char → Bool :=
  chainB (fun c d => !(isPunct1 c && !isPySpace d && !isPunct2 d))

/-- No two adjacent whitespace characters. -/
def noDoubleWs : List Char → Bool :=
  chainB (fun c d => !(isPySpace c && isPySpace d))

/-- Every whitespace character is the plain ASCII space. -/
def wsSingle (l : List Char) : Bool := l.all (fun c => !isPySpace c || c == ' ')

/-- The certificate under which the two punctuation passes cancel exactly,
following the scan structure of `spaceAfterPunct`. -/
def fpOK : List Char → Bool
  | [] => true
  | [_] => true
  | c :: d :: rest =>
    if isPunct1 c && !isPySpace d then isPunct2 d && fpOK rest
    else !(isPySpace c && isPunct2 d) && fpOK (d :: rest)

theorem punct1_not_space {c : Char} (h : isPunct1 c = true) : isPySpace c = false := by
  simp only [isPunct1, Bool.or_eq_true, beq_iff_eq] at h
  rcases h with ((((((((h | h) | h) | h) | h) | h) | h) | h) | h) <;> subst h <;> decide

theorem punct2_punct1 {c : Char} (h : isPunct2 c = true) : isPunct1 c = true := by
  simp only [isPunct2, Bool.or_eq_true, beq_iff_eq] at h
  rcases h with (((((h | h) | h) | h) | h) | h) <;> subst h <;> decide

theorem chainB_cons {R : Char → Char → Bool} {c : Char} {t : List Char} :
    chainB R (c :: t) = ((match t.head? with | some d => R c d | none => true) && chainB R t) := by
  cases t <;> simp [chainB]

theorem chainB_tail {R : Char → Char → Bool} {c : Char} {t : List Char}
    (h : chainB R (c :: t) = true) : chainB R t = true := by
  rw [chainB_cons] at h
  exact (Bool.and_eq_true _ _ ▸ h).2

theorem chainB_head {R : Char → Char → Bool} {c d : Char} {t : List Char}
    (h : chainB R (c :: t) = true) (hd : t.head? = some d) : R c d = true := by
  rw [chainB_cons, hd] at h
  exact (Bool.and_eq_true _ _ ▸ h).1

theorem chainB_dropWhile {R : Char → Char → Bool} (q : Char → Bool) :
    ∀ l : List Char, chainB R l = true → chainB R (l.dropWhile q) = true
  | [], h => h
  | c :: t, h => by
    by_cases hq : q c = true
    · rw [List.dropWhile_cons_of_pos hq]
      exact chainB_dropWhile q t (chainB_tail h)
    · rw [List.dropWhile_cons_of_neg (by simpa using hq)]
      exact h

theorem bnot_true {b : Bool} (h : (!b) = true) : b = false := by
  cases b <;> simp_all

theorem bnot_false {b : Bool} (h : (!b) = false) : b = true := by
  cases b <;> simp_all

theorem band_left {a b : Bool} (h : (a && b) = true) : a = true := by
  cases a <;> simp_all

theorem band_right {a b : Bool} (h : (a && b) = true) : b = true := by
  cases a <;> simp_all

theorem stripSpaceBeforePunct_cons (c : Char) (t : List Char) :
    stripSpaceBeforePunct (c :: t) =
      (if isPySpace c && (stripSpaceBeforePunct t).head?.any isPunct2 then
        stripSpaceBeforePunct t
      else c :: stripSpaceBeforePunct t) := rfl

/-- Under the `fpOK` certificate the two punctuation substitutions cancel:
the space-removal pass deletes exactly the spaces the insertion pass added. -/
theorem strip_spaceAfter_of_fpOK :
    ∀ l : List Char, fpOK l = true → stripSpaceBeforePunct (spaceAfterPunct l) = l
  | [], _ => rfl
  | [c], _ => by
    simp [spaceAfterPunct, stripSpaceBeforePunct]
  | c :: d :: rest, h => by
    by_cases hc : (isPunct1 c && !isPySpace d) = true
    · have h' : (isPunct2 d && fpOK rest) = true := by
        simpa [fpOK, hc] using h
      have hd2 : isPunct2 d = true := band_left h'
      have ih := strip_spaceAfter_of_fpOK rest (band_right h')
      have hcp : isPunct1 c = true := band_left hc
      have hdn : isPySpace d = false := bnot_true (band_right hc)
      have e1 : spaceAfterPunct (c :: d :: rest) = c :: ' ' :: d :: spaceAfterPunct rest := by
        simp [spaceAfterPunct, hc]
      rw [e1, stripSpaceBeforePunct_cons, stripSpaceBeforePunct_cons,
          stripSpaceBeforePunct_cons, ih]
      simp [hdn, hd2, punct1_not_space hcp, (by decide : isPySpace ' ' = true)]
    · have hcf : (isPunct1 c && !isPySpace d) = false := by simpa using hc
      have h' : (!(isPySpace c && isPunct2 d) && fpOK (d :: rest)) = true := by
        simpa [fpOK, hcf] using h
      have hnc : (isPySpace c && isPunct2 d) = false := bnot_true (band_left h')
      have ih := strip_spaceAfter_of_fpOK (d :: rest) (band_right h')
      have e1 : spaceAfterPunct (c :: d :: rest) = c :: spaceAfterPunct (d :: rest) := by
        simp [spaceAfterPunct, hcf]
      rw [e1, stripSpaceBeforePunct_cons, ih]
      simp [hnc]

/-- The insertion pass is the identity on strings whose punctuation is
already followed by whitespace (or end of string). -/
theorem spaceAfterPunct_of_punctSpaced :
    ∀ l : List Char, punctSpaced l = true → spaceAfterPunct l = l
  | [], _ => rfl
  | [_], _ => rfl
  | c :: d :: rest, h => by
    have hR := chainB_head (R := fun c d => !(isPunct1 c && !isPySpace d)) h (by rfl)
    have hc : (isPunct1 c && !isPySpace d) = false := bnot_true hR
    have ih := spaceAfterPunct_of_punctSpaced (d :: rest) (chainB_tail h)
    simp [spaceAfterPunct, hc, ih]

/-- The cancellation certificate follows from two adjacency facts that do not
depend on the scan alignment. -/
theorem fpOK_of_adj :
    ∀ l : List Char, noSpaceBeforeQ l = true → adjPQ l = true → fpOK l = true
  | [], _, _ => rfl
  | [_], _, _ => rfl
  | c :: d :: rest, h1, h2 => by
    have h1h := chainB_head (R := fun c d => !(isPySpace c && isPunct2 d)) h1 (by rfl)
    have h2h := chainB_head (R := fun c d => !(isPunct1 c && !isPySpace d && !isPunct2 d)) h2
      (by rfl)
    by_cases hc : (isPunct1 c && !isPySpace d) = true
    · have hd2 : isPunct2 d = true := by
        have hfalse : (isPunct1 c && !isPySpace d && !isPunct2 d) = false := bnot_true h2h
        rw [hc] at hfalse
        simpa using bnot_false (by simpa using hfalse)
      have hrest : fpOK rest = true :=
        fpOK_of_adj rest (chainB_tail (chainB_tail h1)) (chainB_tail (chainB_tail h2))
      simp [fpOK, hc, hd2, hrest]
    · have hcf : (isPunct1 c && !isPySpace d) = false := by simpa using hc
      have hrec := fpOK_of_adj (d :: rest) (chainB_tail h1) (chainB_tail h2)
      have h1f : (isPySpace c && isPunct2 d) = false := bnot_true h1h
      simp [fpOK, hcf, hrec, h1f]

/-- The head of the space-removal pass's output is either a punct-2
character or the head of the input. -/
theorem head_stripSpaceBeforePunct :
    ∀ (t : List Char) (d : Char), (stripSpaceBeforePunct t).head? = some d →
      isPunct2 d = true ∨ t.head? = some d
  | [], d, h => by simp [stripSpaceBeforePunct] at h
  | c :: t, d, h => by
    rw [stripSpaceBeforePunct_cons] at h
    by_cases hcond : (isPySpace c && (stripSpaceBeforePunct t).head?.any isPunct2) = true
    · rw [if_pos hcond] at h
      left
      have hany : (stripSpaceBeforePunct t).head?.any isPunct2 = true := band_right hcond
      rw [h] at hany
      simpa using hany
    · rw [if_neg (by simpa using hcond)] at h
      right
      simpa using h

/-- The space-removal pass leaves no whitespace directly before a punct-2
character. -/
theorem noSpaceBeforeQ_strip : ∀ l : List Char, noSpaceBeforeQ (stripSpaceBeforePunct l) = true
  | [] => rfl
  | c :: t => by
    have ih := noSpaceBeforeQ_strip t
    rw [stripSpaceBeforePunct_cons]
    by_cases hcond : (isPySpace c && (stripSpaceBeforePunct t).head?.any isPunct2) = true
    · rw [if_pos hcond]; exact ih
    · rw [if_neg (by simpa using hcond)]
      unfold noSpaceBeforeQ
      rw [chainB_cons]
      refine Bool.and_eq_true _ _ ▸ ⟨?_, ih⟩
      cases hh : (stripSpaceBeforePunct t).head? with
      | none => simp
      | some d =>
        simp only
        by_cases hs : isPySpace c = true
        · by_cases hq : isPunct2 d = true
          · exfalso
            apply hcond
            rw [hh]
            simp [hs, hq]
          · simp [by simpa using hq]
        · simp [by simpa using hs]
    termination_by l => l.length

/-- On a punctuation-spaced input, the space-removal pass only ever makes a
punct-1 character adjacent to a following punct-2 character. -/
theorem adjPQ_strip :
    ∀ l : List Char, punctSpaced l = true → adjPQ (stripSpaceBeforePunct l) = true
  | [], _ => rfl
  | c :: t, h => by
    have ih := adjPQ_strip t (chainB_tail h)
    rw [stripSpaceBeforePunct_cons]
    by_cases hcond : (isPySpace c && (stripSpaceBeforePunct t).head?.any isPunct2) = true
    · rw [if_pos hcond]; exact ih
    · rw [if_neg (by simpa using hcond)]
      unfold adjPQ
      rw [chainB_cons]
      refine Bool.and_eq_true _ _ ▸ ⟨?_, ih⟩
      cases hh : (stripSpaceBeforePunct t).head? with
      | none => simp
      | some d =>
        simp only
        by_cases hp : isPunct1 c = true
        · by_cases hs : isPySpace d = true
          · simp [hs]
          · rcases head_stripSpaceBeforePunct t d hh with h2 | hhd
            · simp [h2]
            · exfalso
              have hR := chainB_head (R := fun c d => !(isPunct1 c && !isPySpace d)) h hhd
              have := bnot_true hR
              rw [hp] at this
              exact hs (by simpa using bnot_false (by simpa using this))
        · simp [by simpa using hp]

theorem collapseWs_nil : collapseWs [] = [] := rfl

theorem collapseGo_true_eq :
    ∀ u : List Char, collapseGo true u = collapseWs (u.dropWhile isPySpace)
  | [] => rfl
  | c :: rest => by
    by_cases hc : isPySpace c = true
    · rw [List.dropWhile_cons_of_pos hc]
      simp only [collapseGo, hc]
      exact collapseGo_true_eq rest
    · rw [List.dropWhile_cons_of_neg (by simpa using hc)]
      simp only [collapseGo, collapseWs, by simpa using hc]
      simp

theorem collapseWs_cons (c : Char) (rest : List Char) :
    collapseWs (c :: rest) =
      (if isPySpace c then ' ' :: collapseWs (rest.dropWhile isPySpace)
       else c :: collapseWs rest) := by
  by_cases hc : isPySpace c = true
  · simp only [collapseWs, collapseGo, hc, if_pos, if_true]
    rw [collapseGo_true_eq]
    simp [collapseWs]
  · simp only [collapseWs, collapseGo, hc]
    simp [by simpa using hc]

theorem head_collapseWs (u : List Char) :
    (collapseWs u).head? = u.head?.map (fun a => if isPySpace a then ' ' else a) := by
  cases u with
  | nil => rw [collapseWs_nil]; rfl
  | cons a v =>
    rw [collapseWs_cons]
    by_cases ha : isPySpace a = true
    · rw [if_pos ha]; simp [ha]
    · rw [if_neg (by simpa using ha)]; simp [by simpa using ha]

theorem head_dropWhile_not (q : Char → Bool) :
    ∀ (u : List Char) (d : Char), (u.dropWhile q).head? = some d → q d = false
  | [], d, h => by simp at h
  | a :: v, d, h => by
    by_cases ha : q a = true
    · rw [List.dropWhile_cons_of_pos ha] at h
      exact head_dropWhile_not q v d h
    · rw [List.dropWhile_cons_of_neg (by simpa using ha)] at h
      simp at h
      rw [← h]
      simpa using ha

theorem nsbq_run :
    ∀ (rest : List Char) (c : Char), noSpaceBeforeQ (c :: rest) = true → isPySpace c = true →
      ∀ d, (rest.dropWhile isPySpace).head? = some d → isPunct2 d = false
  | [], _, _, _, d, hd => by simp at hd
  | b :: r, c, h, hc, d, hd => by
    by_cases hb : isPySpace b = true
    · rw [List.dropWhile_cons_of_pos hb] at hd
      exact nsbq_run r b (chainB_tail h) hb d hd
    · rw [List.dropWhile_cons_of_neg (by simpa using hb)] at hd
      simp at hd
      subst hd
      have hR := chainB_head (R := fun c d => !(isPySpace c && isPunct2 d)) h (by rfl)
      have := bnot_true hR
      rw [hc] at this
      simpa using this

theorem noSpaceBeforeQ_collapse :
    ∀ u : List Char, noSpaceBeforeQ u = true → noSpaceBeforeQ (collapseWs u) = true
  | [], _ => by rw [collapseWs_nil]; rfl
  | c :: rest, h => by
    rw [collapseWs_cons]
    by_cases hc : isPySpace c = true
    · rw [if_pos hc]
      have hrec : noSpaceBeforeQ (collapseWs (rest.dropWhile isPySpace)) = true :=
        noSpaceBeforeQ_collapse (rest.dropWhile isPySpace)
          (chainB_dropWhile _ rest (chainB_tail h))
      unfold noSpaceBeforeQ
      rw [chainB_cons]
      refine Bool.and_eq_true _ _ ▸ ⟨?_, hrec⟩
      cases hh : (collapseWs (rest.dropWhile isPySpace)).head? with
      | none => simp
      | some d =>
        simp only
        rw [head_collapseWs] at hh
        cases hu : (rest.dropWhile isPySpace).head? with
        | none => rw [hu] at hh; simp at hh
        | some e =>
          rw [hu] at hh
          have he : isPySpace e = false := head_dropWhile_not isPySpace rest e hu
          simp [he] at hh
          subst hh
          simp [nsbq_run rest c h hc e hu]
    · rw [if_neg (by simpa using hc)]
      have hrec : noSpaceBeforeQ (collapseWs rest) = true :=
        noSpaceBeforeQ_collapse rest (chainB_tail h)
      unfold noSpaceBeforeQ
      rw [chainB_cons]
      refine Bool.and_eq_true _ _ ▸ ⟨?_, hrec⟩
      cases hh : (collapseWs rest).head? with
      | none => simp
      | some d => simp [by simpa using hc]
termination_by u => u.length
decreasing_by
  · simp only [List.length_cons]
    exact Nat.lt_succ_of_le (List.Sublist.length_le (List.dropWhile_sublist isPySpace))
  · simp

theorem adjPQ_collapse :
    ∀ u : List Char, adjPQ u = true → adjPQ (collapseWs u) = true
  | [], _ => by rw [collapseWs_nil]; rfl
  | c :: rest, h => by
    rw [collapseWs_cons]
    by_cases hc : isPySpace c = true
    · rw [if_pos hc]
      have hrec : adjPQ (collapseWs (rest.dropWhile isPySpace)) = true :=
        adjPQ_collapse (rest.dropWhile isPySpace) (chainB_dropWhile _ rest (chainB_tail h))
      unfold adjPQ
      rw [chainB_cons]
      refine Bool.and_eq_true _ _ ▸ ⟨?_, hrec⟩
      cases hh : (collapseWs (rest.dropWhile isPySpace)).head? with
      | none => simp
      | some d => simp [(by decide : isPunct1 ' ' = false)]
    · rw [if_neg (by simpa using hc)]
      have hrec : adjPQ (collapseWs rest) = true := adjPQ_collapse rest (chainB_tail h)
      unfold adjPQ
      rw [chainB_cons]
      refine Bool.and_eq_true _ _ ▸ ⟨?_, hrec⟩
      cases hh : (collapseWs rest).head? with
      | none => simp
      | some d =>
        simp only
        rw [head_collapseWs] at hh
        cases hu : rest.head? with
        | none => rw [hu] at hh; simp at hh
        | some b =>
          rw [hu] at hh
          simp at hh
          by_cases hb : isPySpace b = true
          · rw [if_pos hb] at hh
            subst hh
            simp [(by decide : isPySpace ' ' = true)]
          · rw [if_neg (by simpa using hb)] at hh
            subst hh
            exact chainB_head
              (R := fun c d => !(isPunct1 c && !isPySpace d && !isPunct2 d)) h hu
termination_by u => u.length
decreasing_by
  · simp only [List.length_cons]
    exact Nat.lt_succ_of_le (List.Sublist.length_le (List.dropWhile_sublist isPySpace))
  · simp

theorem wsSingle_collapse : ∀ u : List Char, wsSingle (collapseWs u) = true
  | [] => by rw [collapseWs_nil]; rfl
  | c :: rest => by
    rw [collapseWs_cons]
    by_cases hc : isPySpace c = true
    · rw [if_pos hc]
      have hrec := wsSingle_collapse (rest.dropWhile isPySpace)
      simpa [wsSingle] using hrec
    · rw [if_neg (by simpa using hc)]
      have hrec := wsSingle_collapse rest
      have hch : (!isPySpace c || c == ' ') = true := by simp [by simpa using hc]
      simpa [wsSingle, hch] using hrec
termination_by u => u.length
decreasing_by
  · simp only [List.length_cons]
    exact Nat.lt_succ_of_le (List.Sublist.length_le (List.dropWhile_sublist isPySpace))
  · simp

theorem noDoubleWs_collapse : ∀ u : List Char, noDoubleWs (collapseWs u) = true
  | [] => by rw [collapseWs_nil]; rfl
  | c :: rest => by
    rw [collapseWs_cons]
    by_cases hc : isPySpace c = true
    · rw [if_pos hc]
      have hrec := noDoubleWs_collapse (rest.dropWhile isPySpace)
      unfold noDoubleWs
      rw [chainB_cons]
      refine Bool.and_eq_true _ _ ▸ ⟨?_, hrec⟩
      cases hh : (collapseWs (rest.dropWhile isPySpace)).head? with
      | none => simp
      | some d =>
        simp only
        rw [head_collapseWs] at hh
        cases hu : (rest.dropWhile isPySpace).head? with
        | none => rw [hu] at hh; simp at hh
        | some e' =>
          rw [hu] at hh
          have he : isPySpace e' = false := head_dropWhile_not isPySpace rest e' hu
          simp [he] at hh
          subst hh
          simp [he]
    · rw [if_neg (by simpa using hc)]
      have hrec := noDoubleWs_collapse rest
      unfold noDoubleWs
      rw [chainB_cons]
      refine Bool.and_eq_true _ _ ▸ ⟨?_, hrec⟩
      cases hh : (collapseWs rest).head? with
      | none => simp
      | some d => simp [by simpa using hc]
termination_by u => u.length
decreasing_by
  · simp only [List.length_cons]
    exact Nat.lt_succ_of_le (List.Sublist.length_le (List.dropWhile_sublist isPySpace))
  · simp

theorem head_trimRight :
    ∀ (u : List Char) (d : Char), (trimRight u).head? = some d → u.head? = some d
  | [], d, h => by simp [trimRight] at h
  | c :: rest, d, h => by
    unfold trimRight at h
    cases htr : trimRight rest with
    | nil =>
      rw [htr] at h
      by_cases hc : isPySpace c = true
      · rw [if_pos hc] at h; simp at h
      · rw [if_neg (by simpa using hc)] at h
        simp at h
        simp [h]
    | cons e r' =>
      rw [htr] at h
      simp at h
      simp [h]

theorem chainB_trimRight {R : Char → Char → Bool} :
    ∀ u : List Char, chainB R u = true → chainB R (trimRight u) = true
  | [], h => h
  | c :: rest, h => by
    have ih := chainB_trimRight rest (chainB_tail h)
    unfold trimRight
    cases htr : trimRight rest with
    | nil =>
      by_cases hc : isPySpace c = true
      · rw [if_pos hc]; rfl
      · rw [if_neg (by simpa using hc)]; rfl
    | cons e r' =>
      rw [htr] at ih
      rw [chainB_cons]
      refine Bool.and_eq_true _ _ ▸ ⟨?_, ih⟩
      simp only [List.head?]
      have he : rest.head? = some e := head_trimRight rest e (by rw [htr]; rfl)
      exact chainB_head h he

theorem all_dropWhile {p q : Char → Bool} :
    ∀ u : List Char, u.all p = true → (u.dropWhile q).all p = true
  | [], h => h
  | c :: t, h => by
    by_cases hq : q c = true
    · rw [List.dropWhile_cons_of_pos hq]
      rw [List.all_cons] at h
      exact all_dropWhile t (band_right h)
    · rw [List.dropWhile_cons_of_neg (by simpa using hq)]
      exact h

theorem all_trimRight {p : Char → Bool} :
    ∀ u : List Char, u.all p = true → (trimRight u).all p = true
  | [], h => h
  | c :: rest, h => by
    rw [List.all_cons] at h
    have hc : p c = true := band_left h
    have ih := all_trimRight rest (band_right h)
    unfold trimRight
    cases htr : trimRight rest with
    | nil =>
      by_cases hs : isPySpace c = true
      · rw [if_pos hs]; rfl
      · rw [if_neg (by simpa using hs)]; simp [hc]
    | cons e r' =>
      rw [htr] at ih
      simp [hc, ih]

theorem getLast_trimRight_not_space :
    ∀ (u : List Char) (d : Char), (trimRight u).getLast? = some d → isPySpace d = false
  | [], d, h => by simp [trimRight] at h
  | c :: rest, d, h => by
    unfold trimRight at h
    cases htr : trimRight rest with
    | nil =>
      rw [htr] at h
      by_cases hc : isPySpace c = true
      · rw [if_pos hc] at h; simp at h
      · rw [if_neg (by simpa using hc)] at h
        simp at h
        rw [← h]
        simpa using hc
    | cons e r' =>
      rw [htr] at h
      rw [List.getLast?_cons_cons] at h
      exact getLast_trimRight_not_space rest d (by rw [htr]; exact h)

theorem collapseWs_eq_self :
    ∀ u : List Char, wsSingle u = true → noDoubleWs u = true → collapseWs u = u
  | [], _, _ => rfl
  | c :: rest, hw, hd => by
    have hwc : (!isPySpace c || c == ' ') = true := by
      simp [wsSingle] at hw
      simp [hw.1]
    have hwt : wsSingle rest = true := by
      simp [wsSingle] at hw ⊢
      exact hw.2
    rw [collapseWs_cons]
    by_cases hc : isPySpace c = true
    · rw [if_pos hc]
      have hce : c = ' ' := by
        rw [hc] at hwc
        simpa using hwc
      have hdw : rest.dropWhile isPySpace = rest := by
        cases rest with
        | nil => rfl
        | cons b r =>
          have hR := chainB_head (R := fun c d => !(isPySpace c && isPySpace d)) hd (by rfl)
          have := bnot_true hR
          rw [hc] at this
          have hb : isPySpace b = false := by simpa using this
          rw [List.dropWhile_cons_of_neg (by simp [hb])]
      rw [hdw, collapseWs_eq_self rest hwt (chainB_tail hd), hce]
    · rw [if_neg (by simpa using hc)]
      rw [collapseWs_eq_self rest hwt (chainB_tail hd)]

theorem trimLeft_eq_self (u : List Char)
    (h : ∀ d, u.head? = some d → isPySpace d = false) : trimLeft u = u := by
  cases u with
  | nil => rfl
  | cons c rest =>
    have := h c rfl
    unfold trimLeft
    rw [List.dropWhile_cons_of_neg (by simp [this])]

theorem trimRight_eq_self :
    ∀ u : List Char, (∀ d, u.getLast? = some d → isPySpace d = false) → trimRight u = u
  | [], _ => rfl
  | c :: rest, h => by
    unfold trimRight
    cases rest with
    | nil =>
      have := h c rfl
      simp [trimRight, this]
    | cons b r =>
      have hrec : trimRight (b :: r) = b :: r := by
        apply trimRight_eq_self (b :: r)
        intro d hd
        exact h d (by rw [List.getLast?_cons_cons]; exact hd)
      rw [hrec]

/-- The output of `normalize_string` on a punctuation-spaced input is a fixed
point of every pass of `normalize_string`. -/
theorem normalizeL_idem_aux (l : List Char) (h : punctSpaced l = true) :
    normalizeL (normalizeL l) = normalizeL l := by
  have e0 : spaceAfterPunct l = l := spaceAfterPunct_of_punctSpaced l h
  have eN : normalizeL l = trimRight (trimLeft (collapseWs (stripSpaceBeforePunct l))) := by
    simp [normalizeL, pyStrip, e0]
  have a1 : noSpaceBeforeQ (stripSpaceBeforePunct l) = true := noSpaceBeforeQ_strip l
  have a2 : adjPQ (stripSpaceBeforePunct l) = true := adjPQ_strip l h
  have b1 := noSpaceBeforeQ_collapse _ a1
  have b2 := adjPQ_collapse _ a2
  have c1 : noSpaceBeforeQ (normalizeL l) = true := by
    rw [eN]
    exact chainB_trimRight _ (chainB_dropWhile _ _ b1)
  have c2 : adjPQ (normalizeL l) = true := by
    rw [eN]
    exact chainB_trimRight _ (chainB_dropWhile _ _ b2)
  have hfp : fpOK (normalizeL l) = true := fpOK_of_adj _ c1 c2
  have w1 : wsSingle (normalizeL l) = true := by
    rw [eN]
    have h1 : wsSingle (collapseWs (stripSpaceBeforePunct l)) = true := wsSingle_collapse _
    have h2 : (trimLeft (collapseWs (stripSpaceBeforePunct l))).all
        (fun c => !isPySpace c || c == ' ') = true := all_dropWhile _ h1
    exact all_trimRight _ h2
  have w2 : noDoubleWs (normalizeL l) = true := by
    rw [eN]
    exact chainB_trimRight _ (chainB_dropWhile _ _ (noDoubleWs_collapse _))
  have hhead : ∀ d, (normalizeL l).head? = some d → isPySpace d = false := by
    intro d hd
    rw [eN] at hd
    have := head_trimRight _ d hd
    exact head_dropWhile_not isPySpace _ d this
  have hlast : ∀ d, (normalizeL l).getLast? = some d → isPySpace d = false := by
    intro d hd
    rw [eN] at hd
    exact getLast_trimRight_not_space _ d hd
  conv_lhs => rw [normalizeL]
  rw [strip_spaceAfter_of_fpOK _ hfp, collapseWs_eq_self _ w1 w2]
  unfold pyStrip
  rw [trimLeft_eq_self _ hhead, trimRight_eq_self _ hlast]

example : normalizeL "a))b".data = "a) )b".data := by decide
example : normalizeL "a) )b".data = "a) ) b".data := by decide
example : normalizeL "Hello,  world .".data = "Hello, world.".data := by decide
example : normalizeL "a..b".data = "a..b".data := by decide
example : normalizeL "a...b".data = "a... b".data := by decide
example : normalizeL "a.,;b".data = "a.,; b".data := by decide
example : normalizeL "a;).".data = "a; ).".data := by decide
example : normalizeL "x  y".data = "x y".data := by decide

/-- C9 counterexample: `normalize_string` is not idempotent; on `"a))b"` the
first substitution separates the bracket pair but, having consumed `)` `)`
as one match, leaves `)b` adjacent, and a second application separates it
again. -/
theorem c9_counterexample :
    normalize_string (normalize_string "a))b") ≠ normalize_string "a))b" := by
  decide

/-- C9 (amended): the Text Normalizer is idempotent on every string in which
each punctuation character from `,;:!?.)}]` is immediately followed by
whitespace or by the end of the string: for such `s`,
`normalize_string (normalize_string s) = normalize_string s`. -/
theorem c9_normalize_idempotent_spaced (s : String) (h : punctSpaced s.data = true) :
    normalize_string (normalize_string s) = normalize_string s := by
  simp only [normalize_string]
  exact congrArg String.mk (normalizeL_idem_aux s.data h)

/-- Witness for `c9_normalize_idempotent_spaced` at a concrete input. -/
theorem c9_witness :
    punctSpaced "Hello,  world .".data = true ∧
      normalize_string (normalize_string "Hello,  world .") = normalize_string "Hello,  world ." :=
  ⟨by decide, c9_normalize_idempotent_spaced "Hello,  world ." (by decide)⟩

/-! ### CELEX identifier utilities (`src/eulexbuild/utils.py`)

The regex digit class `\d` is modelled as the ASCII digits (the grammar in
the source only ever produces ASCII identifiers). -/

def isDig (c : Char) : Bool :=
  c == '0' || c == '1' || c == '2' || c == '3' || c == '4' || c == '5' || c == '6' || c == '7' || c == '8' || c == '9'

def isLowerAZ (c : Char) : Bool :=
  c == 'a' || c == 'b' || c == 'c' || c == 'd' || c == 'e' || c == 'f' || c == 'g' || c == 'h' || c == 'i' || c == 'j' || c == 'k' || c == 'l' || c == 'm' || c == 'n' || c == 'o' || c == 'p' || c == 'q' || c == 'r' || c == 's' || c == 't' || c == 'u' || c == 'v' || c == 'w' || c == 'x' || c == 'y' || c == 'z'

theorem dig_not_pyspace {c : Char} (h : isDig c = true) : isPySpace c = false := by
  simp only [isDig, Bool.or_eq_true, beq_iff_eq] at h
  rcases h with (((((((((h | h) | h) | h) | h) | h) | h) | h) | h) | h) <;> subst h <;> decide

theorem dig_toUpper {c : Char} (h : isDig c = true) : c.toUpper = c := by
  simp only [isDig, Bool.or_eq_true, beq_iff_eq] at h
  rcases h with (((((((((h | h) | h) | h) | h) | h) | h) | h) | h) | h) <;> subst h <;> decide

theorem lowerAZ_not_dig {c : Char} (h : isLowerAZ c = true) : isDig c = false := by
  simp only [isLowerAZ, Bool.or_eq_true, beq_iff_eq] at h
  rcases h with (((((((((((((((((((((((((h | h) | h) | h) | h) | h) | h) | h) | h) | h) | h) | h) | h) | h) | h) | h) | h) | h) | h) | h) | h) | h) | h) | h) | h) | h) <;> subst h <;> decide

/-- `normalize_celex`: `celex.strip().upper()`. -/
def normalize_celex (l : List Char) : List Char := (pyStrip l).map Char.toUpper

/-- `CONSOLIDATED_CELEX_PATTERN = re.compile(r'^(0)(\d{4}[RLD]\d{4})(-\d{8}$)')`,
used through `re.match` (anchored at the start; the `$` inside group 3
anchors the end). -/
def is_consolidated_celex (l : List Char) : Bool :=
  match l with
  | c0 :: rest =>
    c0 == '0' &&
    (rest.take 4).length == 4 && (rest.take 4).all isDig &&
    (match rest.drop 4 with
     | t :: rest2 =>
       (t == 'R' || t == 'L' || t == 'D') &&
       (rest2.take 4).length == 4 && (rest2.take 4).all isDig &&
       (match rest2.drop 4 with
        | hy :: ds => hy == '-' && ds.length == 8 && ds.all isDig
        | [] => false)
     | [] => false)
  | [] => false

/-- `convert_consolidated_celex_to_original`: normalize, raise `ValueError`
(modelled as `Except.error`) unless the input matches the consolidated
pattern, else return `"3" + match.group(2)` (the nine characters following
the sector digit). -/
def convert_consolidated_celex_to_original (l : List Char) : Except Unit (List Char) :=
  let c := normalize_celex l
  if is_consolidated_celex c then Except.ok ('3' :: (c.drop 1).take 9)
  else Except.error ()

theorem consolidated_decomp {c : List Char} (h : is_consolidated_celex c = true) :
    ∃ mid suf, c = '0' :: (mid ++ '-' :: suf) ∧ mid.length = 9 ∧
      mid.all (fun x => isDig x || x == 'R' || x == 'L' || x == 'D') = true ∧
      suf.length = 8 ∧ suf.all isDig = true ∧ (c.drop 1).take 9 = mid := by
  cases c with
  | nil => simp [is_consolidated_celex] at h
  | cons c0 rest =>
    simp only [is_consolidated_celex] at h
    have h0 : c0 = '0' := by
      have := band_left (band_left (band_left h))
      simpa using this
    have hlen4 : (rest.take 4).length = 4 := by
      have := band_right (band_left (band_left h))
      simpa using this
    have hdig4 : (rest.take 4).all isDig = true := band_right (band_left h)
    have hrest : (match rest.drop 4 with
        | t :: rest2 =>
          (t == 'R' || t == 'L' || t == 'D') &&
          ((rest2.take 4).length == 4 && (rest2.take 4).all isDig &&
          (match rest2.drop 4 with
            | hy :: ds => hy == '-' && ds.length == 8 && ds.all isDig
            | [] => false))
        | [] => false) = true := by
      have := band_right h
      simpa [Bool.and_assoc] using this
    cases hd4 : rest.drop 4 with
    | nil => rw [hd4] at hrest; simp at hrest
    | cons t rest2 =>
      rw [hd4] at hrest
      simp only at hrest
      have ht : (t == 'R' || t == 'L' || t == 'D') = true := band_left hrest
      have hrest2 := band_right hrest
      have hlen4' : (rest2.take 4).length = 4 := by
        have := band_left (band_left hrest2)
        simpa using this
      have hdig4' : (rest2.take 4).all isDig = true := band_right (band_left hrest2)
      have hinner := band_right hrest2
      cases hds : rest2.drop 4 with
      | nil => rw [hds] at hinner; simp at hinner
      | cons hy ds =>
        rw [hds] at hinner
        simp only at hinner
        have hhy : hy = '-' := by
          have := band_left (band_left hinner)
          simpa using this
        have hlen8 : ds.length = 8 := by
          have := band_right (band_left hinner)
          simpa using this
        have hdig8 : ds.all isDig = true := band_right hinner
        have erest : rest = rest.take 4 ++ t :: (rest2.take 4 ++ '-' :: ds) := by
          conv_lhs => rw [(List.take_append_drop 4 rest).symm, hd4,
            (List.take_append_drop 4 rest2).symm, hds]
          rw [hhy]
        have eassoc : (rest.take 4 ++ t :: (rest2.take 4 ++ '-' :: ds) : List Char) =
            (rest.take 4 ++ t :: rest2.take 4) ++ '-' :: ds := by simp
        refine ⟨rest.take 4 ++ t :: rest2.take 4, ds, ?_, ?_, ?_, hlen8, hdig8, ?_⟩
        · rw [h0]
          conv_lhs => rw [erest]
          rw [eassoc]
        · simp [hlen4, hlen4']
        · rw [List.all_append]
          refine Bool.and_eq_true _ _ ▸ ⟨?_, ?_⟩
          · rw [List.all_eq_true] at hdig4 ⊢
            intro x hx
            simp [hdig4 x hx]
          · rw [List.all_cons]
            refine Bool.and_eq_true _ _ ▸ ⟨?_, ?_⟩
            · rcases (by simpa using ht : (t = 'R' ∨ t = 'L') ∨ t = 'D') with (h' | h') | h' <;>
                subst h' <;> decide
            · rw [List.all_eq_true] at hdig4' ⊢
              intro x hx
              simp [hdig4' x hx]
        · have emid : ((c0 :: rest : List Char).drop 1) = rest := rfl
          rw [emid]
          conv_lhs => rw [erest, eassoc]
          have hl : (rest.take 4 ++ t :: rest2.take 4 : List Char).length = 9 := by
            simp [hlen4, hlen4']
          rw [show (9 : Nat) = (rest.take 4 ++ t :: rest2.take 4 : List Char).length from hl.symm]
          exact List.take_left _ _

theorem pyStrip_eq_self_of_no_ws {l : List Char}
    (h : l.all (fun x => !isPySpace x) = true) : pyStrip l = l := by
  have hhead : ∀ d, l.head? = some d → isPySpace d = false := by
    intro d hd
    rw [List.all_eq_true] at h
    have hm : d ∈ l := List.mem_of_mem_head? (by simp [hd])
    simpa using h d hm
  have hlast : ∀ d, l.getLast? = some d → isPySpace d = false := by
    intro d hd
    rw [List.all_eq_true] at h
    have hm : d ∈ l := by
      rcases List.mem_getLast?_eq_getLast (l := l) (x := d) (by simp [hd]) with ⟨hne, he⟩
      rw [he]
      exact List.getLast_mem hne
    simpa using h d hm
  unfold pyStrip
  rw [trimLeft_eq_self l hhead]
  exact trimRight_eq_self l hlast

theorem map_toUpper_eq_self {l : List Char}
    (h : ∀ x ∈ l, Char.toUpper x = x) : l.map Char.toUpper = l := by
  rw [List.map_congr_left h]
  simp

theorem midchar_not_pyspace {c : Char}
    (h : (isDig c || c == 'R' || c == 'L' || c == 'D') = true) : isPySpace c = false := by
  simp only [Bool.or_eq_true, beq_iff_eq] at h
  rcases h with ((hd | h') | h') | h'
  · exact dig_not_pyspace hd
  · subst h'; decide
  · subst h'; decide
  · subst h'; decide

theorem midchar_toUpper {c : Char}
    (h : (isDig c || c == 'R' || c == 'L' || c == 'D') = true) : Char.toUpper c = c := by
  simp only [Bool.or_eq_true, beq_iff_eq] at h
  rcases h with ((hd | h') | h') | h'
  · exact dig_toUpper hd
  · subst h'; decide
  · subst h'; decide
  · subst h'; decide

/-- C8: `convert_consolidated_celex_to_original` raises a `ValueError`
exactly when its normalized input is not a consolidated identifier, and on
every consolidated identifier `c` it returns `c` with the sector digit
rewritten to `'3'` and the as-of-date suffix (the `-YYYYMMDD` tail) dropped;
the result is never itself a consolidated identifier. -/
theorem c8_convert_consolidated_spec :
    (∀ s : List Char, (∃ r, convert_consolidated_celex_to_original s = Except.ok r) ↔
        is_consolidated_celex (normalize_celex s) = true) ∧
    (∀ c : List Char, is_consolidated_celex c = true →
      ∃ mid suf, c = '0' :: (mid ++ '-' :: suf) ∧ mid.length = 9 ∧ suf.length = 8 ∧
        convert_consolidated_celex_to_original c = Except.ok ('3' :: mid) ∧
        is_consolidated_celex ('3' :: mid) = false) := by
  constructor
  · intro s
    by_cases hc : is_consolidated_celex (normalize_celex s) = true
    · simp [convert_consolidated_celex_to_original, hc]
    · simp [convert_consolidated_celex_to_original, hc]
  · intro c hc
    obtain ⟨mid, suf, hdecomp, hmidlen, hmidall, hsuflen, hsufall, htake⟩ := consolidated_decomp hc
    have hws : c.all (fun x => !isPySpace x) = true := by
      rw [List.all_eq_true]
      intro x hx
      rw [hdecomp] at hx
      simp only [List.mem_cons, List.mem_append] at hx
      rcases hx with hx | (hx | (hx | hx))
      · subst hx; decide
      · rw [List.all_eq_true] at hmidall
        simp [midchar_not_pyspace (hmidall x hx)]
      · subst hx; decide
      · rw [List.all_eq_true] at hsufall
        simp [dig_not_pyspace (hsufall x hx)]
    have hup : ∀ x ∈ c, Char.toUpper x = x := by
      intro x hx
      rw [hdecomp] at hx
      simp only [List.mem_cons, List.mem_append] at hx
      rcases hx with hx | (hx | (hx | hx))
      · subst hx; decide
      · rw [List.all_eq_true] at hmidall
        exact midchar_toUpper (hmidall x hx)
      · subst hx; decide
      · rw [List.all_eq_true] at hsufall
        exact dig_toUpper (hsufall x hx)
    have hnorm : normalize_celex c = c := by
      unfold normalize_celex
      rw [pyStrip_eq_self_of_no_ws hws]
      exact map_toUpper_eq_self hup
    refine ⟨mid, suf, hdecomp, hmidlen, hsuflen, ?_, ?_⟩
    · unfold convert_consolidated_celex_to_original
      simp only [hnorm, hc, if_true]
      rw [htake]
    · have h30 : ('3' == '0' : Bool) = false := by decide
      simp [is_consolidated_celex, h30]

/-- Witness for `c8_convert_consolidated_spec` at `02016R0679-20210101`. -/
theorem c8_witness :
    is_consolidated_celex "02016R0679-20210101".data = true ∧
      ∃ mid suf, "02016R0679-20210101".data = '0' :: (mid ++ '-' :: suf) ∧ mid.length = 9 ∧
        suf.length = 8 ∧
        convert_consolidated_celex_to_original "02016R0679-20210101".data =
          Except.ok ('3' :: mid) ∧
        is_consolidated_celex ('3' :: mid) = false :=
  ⟨by decide, c8_convert_consolidated_spec.2 "02016R0679-20210101".data (by decide)⟩

deriving instance DecidableEq for Except

example : convert_consolidated_celex_to_original "02016R0679-20210101".data =
    Except.ok "32016R0679".data := by decide
example : convert_consolidated_celex_to_original " 02016r0679-20210101 ".data =
    Except.ok "32016R0679".data := by decide
example : convert_consolidated_celex_to_original "32016R0679".data = Except.error () := by decide

/-! ### `DataResolver.get_document_type` (`data_resolver.py`, lines 188-217) -/

/-- Python `str.rstrip('0123456789')`: drop trailing ASCII digits. -/
def rstripDigits : List Char → List Char
  | [] => []
  | c :: rest =>
    match rstripDigits rest with
    | [] => if isDig c then [] else [c]
    | r => c :: r

/-- The fixed `doc_type_map` dictionary; a lookup failure models the
`KeyError` the code catches. -/
def doc_type_map (code : List Char) : Option (List Char) :=
  if code == ['L'] then some "directive".data
  else if code == ['R'] then some "regulation".data
  else if code == ['D'] then some "decision".data
  else if code == ['P', 'C'] then some "proposal".data
  else if code == ['D', 'C'] then some "other preparatory document".data
  else none

/-- `get_document_type`: slice `celex_id[5:7]` (Python slicing never raises),
strip trailing digits, look the code up in `doc_type_map` (a `KeyError` is
caught and yields `"Unknown"`), and prefix `"consolidated "` when
`celex_id[0]` is `'0'`; on the empty identifier `celex_id[0]` raises an
`IndexError` which is caught and yields `"Unknown"`. -/
def get_document_type : List Char → List Char
  | [] => "Unknown".data
  | first_digit :: rest =>
    match doc_type_map (rstripDigits (((first_digit :: rest).drop 5).take 2)) with
    | some t => if first_digit == '0' then "consolidated ".data ++ t else t
    | none => "Unknown".data

/-- C6: `get_document_type` is derived from the type code at identifier
positions 6-7 (0-based slice `[5:7]`) with trailing digits stripped, mapped
through the fixed table, with a `"consolidated "` prefix when the sector
digit is `'0'`; unknown codes and malformed (too-short or empty)
identifiers yield `"Unknown"` without raising. -/
theorem c6_get_document_type :
    (∀ celex : List Char, ∀ t,
        doc_type_map (rstripDigits ((celex.drop 5).take 2)) = some t →
        get_document_type celex =
          (if celex.head? = some '0' then "consolidated ".data ++ t else t)) ∧
    (∀ celex : List Char,
        doc_type_map (rstripDigits ((celex.drop 5).take 2)) = none →
        get_document_type celex = "Unknown".data) ∧
    get_document_type "32024R1689".data = "regulation".data ∧
    get_document_type "02016R0679-20210101".data = "consolidated regulation".data ∧
    get_document_type "32019L0790".data = "directive".data ∧
    get_document_type "52021PC0206".data = "proposal".data ∧
    get_document_type "32024X1689".data = "Unknown".data ∧
    get_document_type "32R".data = "Unknown".data ∧
    get_document_type [] = "Unknown".data := by
  refine ⟨?_, ?_, by decide, by decide, by decide, by decide, by decide, by decide, by decide⟩
  · intro celex t ht
    cases celex with
    | nil => simp [doc_type_map, rstripDigits] at ht
    | cons fd rest =>
      simp only [get_document_type]
      rw [ht]
      simp only [List.head?_cons, Option.some.injEq]
      by_cases h0 : fd = '0'
      · subst h0
        simp
      · rw [if_neg (by simpa using h0), if_neg h0]
  · intro celex ht
    cases celex with
    | nil => rfl
    | cons fd rest =>
      simp only [get_document_type]
      rw [ht]

/-- Witness for `c6_get_document_type` at a concrete identifier. -/
theorem c6_witness :
    get_document_type "32008R0765".data =
      (if ("32008R0765".data.head? = some '0') then
        "consolidated ".data ++ "regulation".data
      else "regulation".data) :=
  c6_get_document_type.1 "32008R0765".data "regulation".data (by decide)

/-! ### Multi-choice document selection (`cellar_restapi.py`, lines 62-170) -/

/-- Python's substring test `needle in hay`. -/
def isSubstring (needle hay : List Char) : Bool := decide (List.IsInfix needle hay)

/-- One alternative from a 300 Multiple Choices response:
`(url, stream_name, stream_order)`. -/
structure DocCandidate where
  url : List Char
  streamName : List Char
  streamOrder : Int
deriving DecidableEq, Repr

/-- `keyword.upper() in stream_name.upper()` for some include keyword. -/
def hasIncludeKw (include_keywords : List (List Char)) (it : DocCandidate) : Bool :=
  include_keywords.any
    (fun kw => isSubstring (kw.map Char.toUpper) (it.streamName.map Char.toUpper))

/-- `_score_candidate`: the stream order, minus 1000 when the filename
contains an include keyword (lower is better). -/
def score_candidate (include_keywords : List (List Char)) (it : DocCandidate) : Int :=
  if hasIncludeKw include_keywords it then it.streamOrder - 1000 else it.streamOrder

/-- `any(keyword.lower() in stream_name.lower() for keyword in exclude_keywords)`. -/
def excludedBy (exclude_keywords : List (List Char)) (it : DocCandidate) : Bool :=
  exclude_keywords.any
    (fun kw => isSubstring (kw.map Char.toLower) (it.streamName.map Char.toLower))

/-- Python `min(candidates, key=...)`: the first element attaining the
minimal key. -/
def minByScore (include_keywords : List (List Char)) (c0 : DocCandidate)
    (cs : List DocCandidate) : DocCandidate :=
  cs.foldl
    (fun best x =>
      if score_candidate include_keywords x < score_candidate include_keywords best then x
      else best) c0

/-- `_select_document`: raise on an empty list; drop candidates whose name
contains an exclude keyword; if none survive, fall back to the first
original candidate (with a logged warning); otherwise pick the minimum by
`_score_candidate`. -/
def select_document (items : List DocCandidate)
    (include_keywords exclude_keywords : List (List Char)) : Except Unit (List Char) :=
  match items with
  | [] => Except.error ()
  | i0 :: _ =>
    match items.filter (fun it => !excludedBy exclude_keywords it) with
    | [] => Except.ok i0.url
    | c0 :: cs => Except.ok (minByScore include_keywords c0 cs).url

theorem minByScore_spec (inc : List (List Char)) :
    ∀ (cs : List DocCandidate) (c0 : DocCandidate),
      minByScore inc c0 cs ∈ c0 :: cs ∧
      ∀ x ∈ c0 :: cs, score_candidate inc (minByScore inc c0 cs) ≤ score_candidate inc x
  | [], c0 => by simp [minByScore]
  | x :: cs, c0 => by
    by_cases hlt : score_candidate inc x < score_candidate inc c0
    · have estep : minByScore inc c0 (x :: cs) = minByScore inc x cs := by
        simp [minByScore, List.foldl_cons, hlt]
      obtain ⟨ihmem, ihle⟩ := minByScore_spec inc cs x
      constructor
      · rw [estep]
        rcases List.mem_cons.mp ihmem with hm | hm
        · exact List.mem_cons.mpr (Or.inr (List.mem_cons.mpr (Or.inl hm)))
        · exact List.mem_cons.mpr (Or.inr (List.mem_cons.mpr (Or.inr hm)))
      · intro y hy
        rw [estep]
        rcases List.mem_cons.mp hy with hm | hm
        · subst hm
          calc score_candidate inc (minByScore inc x cs) ≤ score_candidate inc x :=
              ihle x (List.mem_cons.mpr (Or.inl rfl))
            _ ≤ score_candidate inc y := le_of_lt hlt
        · exact ihle y hm
    · have estep : minByScore inc c0 (x :: cs) = minByScore inc c0 cs := by
        simp [minByScore, List.foldl_cons, hlt]
      obtain ⟨ihmem, ihle⟩ := minByScore_spec inc cs c0
      constructor
      · rw [estep]
        rcases List.mem_cons.mp ihmem with hm | hm
        · exact List.mem_cons.mpr (Or.inl hm)
        · exact List.mem_cons.mpr (Or.inr (List.mem_cons.mpr (Or.inr hm)))
      · intro y hy
        rw [estep]
        rcases List.mem_cons.mp hy with hm | hm
        · subst hm
          exact ihle y (List.mem_cons.mpr (Or.inl rfl))
        · rcases List.mem_cons.mp hm with hm' | hm'
          · subst hm'
            calc score_candidate inc (minByScore inc c0 cs) ≤ score_candidate inc c0 :=
                ihle c0 (List.mem_cons.mpr (Or.inl rfl))
              _ ≤ score_candidate inc y := le_of_not_lt hlt
          · exact ihle y (List.mem_cons.mpr (Or.inr hm'))

/-- C5 (amended): document selection drops exclude-keyword candidates first;
among the survivors the first minimum of `_score_candidate` wins, where an
include-keyword match subtracts 1000 from the declared order-index.
Provided every declared order-index lies in `[0, 1000)` the bonus is
decisive: an include-keyword survivor beats every survivor without one,
ties between include-keyword survivors are broken by ascending order-index,
with no include match the lowest order-index wins, and when every candidate
is excluded the first original candidate is returned. -/
theorem c5_select_document_spec (i0 : DocCandidate) (rest : List DocCandidate)
    (inc exc : List (List Char)) (survivors : List DocCandidate)
    (hs : survivors = (i0 :: rest).filter (fun it => !excludedBy exc it))
    (hb : ∀ it ∈ i0 :: rest, 0 ≤ it.streamOrder ∧ it.streamOrder < 1000) :
    (survivors = [] → select_document (i0 :: rest) inc exc = Except.ok i0.url) ∧
    (∀ c0 cs, survivors = c0 :: cs → ∃ ch ∈ survivors,
       select_document (i0 :: rest) inc exc = Except.ok ch.url ∧
       ((∃ s ∈ survivors, hasIncludeKw inc s = true) →
         hasIncludeKw inc ch = true ∧
         ∀ s ∈ survivors, hasIncludeKw inc s = true → ch.streamOrder ≤ s.streamOrder) ∧
       ((∀ s ∈ survivors, hasIncludeKw inc s = false) →
         ∀ s ∈ survivors, ch.streamOrder ≤ s.streamOrder)) := by
  have hbs : ∀ it ∈ survivors, 0 ≤ it.streamOrder ∧ it.streamOrder < 1000 := by
    intro it hit
    rw [hs] at hit
    exact hb it (List.mem_filter.mp hit).1
  constructor
  · intro he
    rw [he] at hs
    unfold select_document
    rw [← hs]
  · intro c0 cs hcons
    have hfilter : (i0 :: rest).filter (fun it => !excludedBy exc it) = c0 :: cs := by
      rw [← hs, hcons]
    obtain ⟨hmem, hle⟩ := minByScore_spec inc cs c0
    refine ⟨minByScore inc c0 cs, by rw [hcons]; exact hmem, ?_, ?_, ?_⟩
    · unfold select_document
      rw [hfilter]
    · rintro ⟨s, hsm, hsk⟩
      have hsm' : s ∈ c0 :: cs := by rw [← hcons]; exact hsm
      have hchm : minByScore inc c0 cs ∈ survivors := by rw [hcons]; exact hmem
      have hsb := hbs s hsm
      have hchb := hbs _ hchm
      have hscs : score_candidate inc s = s.streamOrder - 1000 := by
        simp [score_candidate, hsk]
      have hlt0 : score_candidate inc (minByScore inc c0 cs) < 0 := by
        calc score_candidate inc (minByScore inc c0 cs) ≤ score_candidate inc s := hle s hsm'
          _ = s.streamOrder - 1000 := hscs
          _ < 0 := by omega
      have hkch : hasIncludeKw inc (minByScore inc c0 cs) = true := by
        by_contra hk
        have hk' : hasIncludeKw inc (minByScore inc c0 cs) = false := by simpa using hk
        rw [score_candidate, hk'] at hlt0
        simp at hlt0
        omega
      refine ⟨hkch, ?_⟩
      intro s' hs'm hs'k
      have hs'm' : s' ∈ c0 :: cs := by rw [← hcons]; exact hs'm
      have := hle s' hs'm'
      rw [score_candidate, hkch, if_pos rfl, score_candidate, hs'k, if_pos rfl] at this
      omega
    · intro hnone s' hs'm
      have hs'm' : s' ∈ c0 :: cs := by rw [← hcons]; exact hs'm
      have hchm : minByScore inc c0 cs ∈ survivors := by rw [hcons]; exact hmem
      have := hle s' hs'm'
      rw [score_candidate, hnone _ hchm, score_candidate, hnone _ hs'm] at this
      simpa using this

/-- C5 counterexample: an include-keyword candidate does not win over every
candidate without one once its declared order-index reaches 1000 or more;
the `-1000` score bonus is then not decisive, refuting the claim's absolute
priority for arbitrary order-indices. -/
theorem c5_counterexample :
    select_document
        [⟨"u1".data, "ACT".data, 2000⟩, ⟨"u2".data, "other".data, 5⟩]
        ["ACT".data] [] = Except.ok "u2".data ∧
      hasIncludeKw ["ACT".data] ⟨"u1".data, "ACT".data, 2000⟩ = true ∧
      hasIncludeKw ["ACT".data] ⟨"u2".data, "other".data, 5⟩ = false ∧
      excludedBy [] ⟨"u1".data, "ACT".data, 2000⟩ = false ∧
      "u2".data ≠ "u1".data := by
  refine ⟨?_, by decide, by decide, by decide, by decide⟩
  decide

/-- Witness for `c5_select_document_spec` at a concrete candidate list with
all order-indices in `[0, 1000)`. -/
theorem c5_witness :
    (((([⟨"a".data, "xx ACT".data, 7⟩, ⟨"b".data, "other".data, 3⟩] : List DocCandidate)) = [] →
        select_document [⟨"a".data, "xx ACT".data, 7⟩, ⟨"b".data, "other".data, 3⟩]
          ["ACT".data] [] = Except.ok "a".data) ∧
      (∀ c0 cs,
        ([⟨"a".data, "xx ACT".data, 7⟩, ⟨"b".data, "other".data, 3⟩] : List DocCandidate) =
          c0 :: cs →
        ∃ ch ∈ ([⟨"a".data, "xx ACT".data, 7⟩, ⟨"b".data, "other".data, 3⟩] :
            List DocCandidate),
          select_document [⟨"a".data, "xx ACT".data, 7⟩, ⟨"b".data, "other".data, 3⟩]
            ["ACT".data] [] = Except.ok ch.url ∧
          ((∃ s ∈ ([⟨"a".data, "xx ACT".data, 7⟩, ⟨"b".data, "other".data, 3⟩] :
              List DocCandidate), hasIncludeKw ["ACT".data] s = true) →
            hasIncludeKw ["ACT".data] ch = true ∧
            ∀ s ∈ ([⟨"a".data, "xx ACT".data, 7⟩, ⟨"b".data, "other".data, 3⟩] :
                List DocCandidate), hasIncludeKw ["ACT".data] s = true →
              ch.streamOrder ≤ s.streamOrder) ∧
          ((∀ s ∈ ([⟨"a".data, "xx ACT".data, 7⟩, ⟨"b".data, "other".data, 3⟩] :
              List DocCandidate), hasIncludeKw ["ACT".data] s = false) →
            ∀ s ∈ ([⟨"a".data, "xx ACT".data, 7⟩, ⟨"b".data, "other".data, 3⟩] :
                List DocCandidate), ch.streamOrder ≤ s.streamOrder))) :=
  c5_select_document_spec ⟨"a".data, "xx ACT".data, 7⟩ [⟨"b".data, "other".data, 3⟩]
    ["ACT".data] [] [⟨"a".data, "xx ACT".data, 7⟩, ⟨"b".data, "other".data, 3⟩]
    (by decide) (by decide)

/-! ### Document tree model (parsed lxml elements)

An element carries its local tag name, `class` and `id` attributes (empty
string when absent, as `attrib.get(..., "")` yields), its leading text, its
children, and its tail text (lxml's `.text`/`.tail`, with `None` modelled as
the empty string: every use in the source goes through a truthiness test or
a whitespace filter, which identifies the two). -/

inductive XElem where
  | mk (tag cls : String) (idAttr : List Char) (text : List Char)
      (children : List XElem) (tail : List Char)

def XElem.tag : XElem → String
  | .mk t _ _ _ _ _ => t

def XElem.cls : XElem → String
  | .mk _ c _ _ _ _ => c

def XElem.idAttr : XElem → List Char
  | .mk _ _ i _ _ _ => i

def XElem.text : XElem → List Char
  | .mk _ _ _ tx _ _ => tx

def XElem.children : XElem → List XElem
  | .mk _ _ _ _ ch _ => ch

def XElem.tail : XElem → List Char
  | .mk _ _ _ _ _ tl => tl

mutual

/-- Descendants of an element in document (preorder) order, excluding the
element itself: the xpath `.//` axis. -/
def XElem.descendants : XElem → List XElem
  | .mk _ _ _ _ ch _ => XElem.descendantsList ch

def XElem.descendantsList : List XElem → List XElem
  | [] => []
  | e :: es => e :: (XElem.descendants e ++ XElem.descendantsList es)

end

mutual

/-- lxml `itertext()`: the element's text, then for each child its
`itertext()` followed by the child's tail; empty (`None`) texts are
skipped. -/
def XElem.itertext : XElem → List (List Char)
  | .mk _ _ _ tx ch _ => (if tx ≠ [] then [tx] else []) ++ XElem.itertextList ch

def XElem.itertextList : List XElem → List (List Char)
  | [] => []
  | e :: es =>
    (XElem.itertext e ++ (if e.tail ≠ [] then [e.tail] else [])) ++ XElem.itertextList es

end

/-- `" ".join(parts)`. -/
def joinSp (parts : List (List Char)) : List Char := List.intercalate [' '] parts

/-- `DataResolver._extract_text`:
`normalize_string(" ".join(t for t in element.itertext() if t.strip()))`. -/
def extract_text (e : XElem) : List Char :=
  normalizeL (joinSp (e.itertext.filter (fun t => t.any (fun ch => !isPySpace ch))))

/-- `is_standard_structure`: a `div` whose id starts with `rct_` or `art_`. -/
def is_standard_structure (tree : XElem) : Bool :=
  tree.descendants.any (fun e =>
    e.tag == "div" &&
      (List.isPrefixOf "rct_".data e.idAttr || List.isPrefixOf "art_".data e.idAttr))

/-- `is_manual_structure`: a `p` with one of three CSS class markers. -/
def is_manual_structure (tree : XElem) : Bool :=
  tree.descendants.any (fun e =>
    e.tag == "p" &&
      (e.cls == "li ManualConsidrant" || e.cls == "Titrearticle" || e.cls == "Annexetitre"))

/-- `is_text_only_structure`: a `div` with id `TexteOnly`. -/
def is_text_only_structure (tree : XElem) : Bool :=
  tree.descendants.any (fun e => e.tag == "div" && e.idAttr == "TexteOnly".data)

mutual

/-- `_flatten_content_divs` on a parsed tree: replace every
`div class='content'` by its children (processed recursively, matching the
document-order mutation of the Python code). -/
def flattenTree : XElem → XElem
  | .mk tg cl idA tx ch tl => .mk tg cl idA tx (flattenChildren ch) tl

def flattenChildren : List XElem → List XElem
  | [] => []
  | e :: es =>
    (match flattenTree e with
     | e' => if e'.tag == "div" && e'.cls == "content" then e'.children else [e']) ++
    flattenChildren es

end

/-- Raw bytes fetched from the repository, as far as parsing can observe
them: well-formed XML (parses with `etree.fromstring` and `html.fromstring`),
HTML that only the lenient `html.fromstring` accepts, or bytes neither
parser accepts. -/
inductive Markup where
  | xmlGood (t : XElem)
  | htmlOnly (t : XElem)
  | garbage

/-- `_flatten_content_divs` on bytes: try the XML parse, retry as HTML, and
on a second failure return the bytes unchanged. -/
def flatten_content_divs : Markup → Markup
  | .xmlGood t => .xmlGood (flattenTree t)
  | .htmlOnly t => .htmlOnly (flattenTree t)
  | .garbage => .garbage

/-- `etree.fromstring`. -/
def parseXmlM : Markup → Except Unit XElem
  | .xmlGood t => Except.ok t
  | _ => Except.error ()

/-- `html.fromstring` (lenient). -/
def parseHtmlM : Markup → Except Unit XElem
  | .xmlGood t => Except.ok t
  | .htmlOnly t => Except.ok t
  | .garbage => Except.error ()

/-! ### Text units and the Standard-structure extraction routines
(`data_resolver.py`, lines 275-358)

Each extraction routine is modelled as the body of its `try` block: it
returns the units accumulated before any exception together with
`some ()` when an exception was raised (the routine's `except` handler
logs and returns the accumulated list). -/

structure TextUnit where
  celex_id : List Char
  utype : String
  number : List Char
  title : Option (List Char)
  text : List Char
deriving DecidableEq, Repr

/-- `_extract_standard_structure_recitals`: one unit per `div` whose id
starts with `rct_`. -/
def extract_standard_structure_recitals (celex : List Char) (tree : XElem) :
    List TextUnit × Option Unit :=
  ((tree.descendants.filter (fun e =>
      e.tag == "div" && List.isPrefixOf "rct_".data e.idAttr)).map (fun recital =>
    { celex_id := celex
      utype := "recital"
      number := if List.isPrefixOf "rct_".data recital.idAttr then recital.idAttr.drop 4
                else recital.idAttr
      title := none
      text := extract_text recital }), none)

/-- `re:test(@id, '^art_\d+[a-z]*$')`. -/
def artIdMatch (l : List Char) : Bool :=
  List.isPrefixOf "art_".data l &&
    !((l.drop 4).takeWhile isDig).isEmpty &&
    ((l.drop 4).drop (((l.drop 4).takeWhile isDig).length)).all isLowerAZ

/-- `_extract_standard_structure_articles`: one unit per `div` whose id
matches `^art_\d+[a-z]*$`; title from the first nested `eli-title` div;
body from the direct children that are neither the title nor the
`oj-ti-art` heading, space-joined and stripped. -/
def extract_standard_structure_articles (celex : List Char) (tree : XElem) :
    List TextUnit × Option Unit :=
  ((tree.descendants.filter (fun e => e.tag == "div" && artIdMatch e.idAttr)).map (fun article =>
    let titleNodes := article.descendants.filter (fun e =>
      e.tag == "div" && e.cls == "eli-title")
    let title := match titleNodes.head? with
      | some d => extract_text d
      | none => []
    let text_parts := (article.children.filter (fun child =>
        child.cls != "eli-title" && child.cls != "oj-ti-art")).map extract_text
    { celex_id := celex
      utype := "article"
      number := if List.isPrefixOf "art_".data article.idAttr then article.idAttr.drop 4
                else article.idAttr
      title := some title
      text := pyStrip (joinSp text_parts) }), none)

def isRomanOrDigit (c : Char) : Bool :=
  c == 'I' || c == 'V' || c == 'X' || c == 'L' || c == 'C' || c == 'D' || c == 'M' ||
  c == 'i' || c == 'v' || c == 'x' || c == 'l' || c == 'c' || c == 'd' || c == 'm' || isDig c

/-- `re:test(@id, '^anx_[IVXLCDMivxlcdm0-9]+$')`. -/
def anxIdMatch (l : List Char) : Bool :=
  List.isPrefixOf "anx_".data l && !(l.drop 4).isEmpty && (l.drop 4).all isRomanOrDigit

/-- `re.match(r"^ANNEX\s*[IVXLCDM]*", text, re.IGNORECASE)` is truthy exactly
when the text starts with `ANNEX` case-insensitively (both starred groups
may be empty). -/
def annexHeaderMatch (l : List Char) : Bool :=
  List.isPrefixOf "annex".data (l.map Char.toLower)

/-- `_extract_standard_structure_annexes`: one unit per `div` whose id
matches `^anx_[IVXLCDMivxlcdm0-9]+$`; among `oj-doc-ti` children those
matching the `ANNEX` header pattern are discarded, the others (last one
wins) become the title; all remaining children contribute body text. -/
def extract_standard_structure_annexes (celex : List Char) (tree : XElem) :
    List TextUnit × Option Unit :=
  ((tree.descendants.filter (fun e => e.tag == "div" && anxIdMatch e.idAttr)).map (fun annex =>
    let res := annex.children.foldl
      (fun (acc : List Char × List (List Char)) child =>
        if child.cls == "oj-doc-ti" then
          (if !annexHeaderMatch (extract_text child) then (extract_text child, acc.2) else acc)
        else (acc.1, acc.2 ++ [extract_text child])) ([], [])
    { celex_id := celex
      utype := "annex"
      number := if List.isPrefixOf "anx_".data annex.idAttr then annex.idAttr.drop 4
                else annex.idAttr
      title := some res.1
      text := pyStrip (joinSp res.2) }), none)

theorem takeWhile_append_all {p : Char → Bool} :
    ∀ (ds ls : List Char), ds.all p = true → (ds ++ ls).takeWhile p = ds ++ ls.takeWhile p
  | [], ls, _ => by simp
  | d :: ds, ls, h => by
    rw [List.all_cons] at h
    simp only [List.cons_append]
    rw [List.takeWhile_cons_of_pos (band_left h)]
    rw [takeWhile_append_all ds ls (band_right h)]

theorem takeWhile_dig_nil_of_lower {ls : List Char} (h : ls.all isLowerAZ = true) :
    ls.takeWhile isDig = [] := by
  cases ls with
  | nil => rfl
  | cons c rest =>
    rw [List.all_cons] at h
    rw [List.takeWhile_cons_of_neg]
    simp [lowerAZ_not_dig (band_left h)]

/-- The tree used by the claim's instance: an `art_1` division containing a
nested `art_1_para_2` division. -/
def c7tree : XElem :=
  XElem.mk "html" "" [] []
    [XElem.mk "div" "" "art_1".data "Article 1 text".data
      [XElem.mk "div" "" "art_1_para_2".data "Paragraph 2".data [] []] []] []

/-- C7: Standard-structure article extraction produces one unit per element
whose id matches `art_<digits><optional lowercase letters>` exactly, with
`number` the suffix after `art_`; nested sub-identifiers such as
`art_1_para_2` do not match, so a document containing `art_1` and
`art_1_para_2` yields exactly one article unit. -/
theorem c7_standard_article_extraction :
    (∀ l : List Char, artIdMatch l = true ↔
      ∃ ds ls, l = "art_".data ++ (ds ++ ls) ∧ ds ≠ [] ∧ ds.all isDig = true ∧
        ls.all isLowerAZ = true) ∧
    (∀ (celex : List Char) (tree : XElem),
      (extract_standard_structure_articles celex tree).1.map (fun u => u.number) =
        (tree.descendants.filter (fun e => e.tag == "div" && artIdMatch e.idAttr)).map
          (fun e => e.idAttr.drop 4)) ∧
    artIdMatch "art_1".data = true ∧
    artIdMatch "art_12b".data = true ∧
    artIdMatch "art_1_para_2".data = false ∧
    artIdMatch "art_".data = false ∧
    (extract_standard_structure_articles "32024R1689".data c7tree).1.length = 1 := by
  refine ⟨?_, ?_, by decide, by decide, by decide, by decide, by decide⟩
  · intro l
    constructor
    · intro h
      have hp : List.isPrefixOf "art_".data l = true := band_left (band_left h)
      have hne : (!((l.drop 4).takeWhile isDig).isEmpty) = true := band_right (band_left h)
      have hall := band_right h
      rw [List.isPrefixOf_iff_prefix] at hp
      obtain ⟨t, ht⟩ := hp
      refine ⟨(l.drop 4).takeWhile isDig, (l.drop 4).dropWhile isDig, ?_, ?_, ?_, ?_⟩
      · have hd : l.drop 4 = t := by
          rw [← ht]
          exact List.drop_left "art_".data t
        rw [List.takeWhile_append_dropWhile _ (l.drop 4), hd, ← ht]
      · intro he
        rw [he] at hne
        simp at hne
      · rw [List.all_eq_true]
        intro x hx
        exact List.mem_takeWhile_imp hx
      · have hsplit : (l.drop 4).drop (((l.drop 4).takeWhile isDig).length) =
            (l.drop 4).dropWhile isDig := by
          calc (l.drop 4).drop (((l.drop 4).takeWhile isDig).length)
              = ((l.drop 4).takeWhile isDig ++ (l.drop 4).dropWhile isDig).drop
                  (((l.drop 4).takeWhile isDig).length) := by
                rw [List.takeWhile_append_dropWhile]
            _ = (l.drop 4).dropWhile isDig := List.drop_left _ _
        rwa [hsplit] at hall
    · rintro ⟨ds, ls, hl, hne, hds, hls⟩
      have hd4 : l.drop 4 = ds ++ ls := by
        rw [hl]
        exact List.drop_left "art_".data (ds ++ ls)
      have htw : (l.drop 4).takeWhile isDig = ds := by
        rw [hd4, takeWhile_append_all ds ls hds, takeWhile_dig_nil_of_lower hls,
          List.append_nil]
      unfold artIdMatch
      rw [htw, hd4]
      have h1 : List.isPrefixOf "art_".data l = true := by
        rw [List.isPrefixOf_iff_prefix, hl]
        exact ⟨ds ++ ls, rfl⟩
      have h2 : (!(ds : List Char).isEmpty) = true := by
        cases ds with
        | nil => exact absurd rfl hne
        | cons a b => rfl
      rw [h1, h2, List.drop_left ds ls, hls]
      rfl
  · intro celex tree
    unfold extract_standard_structure_articles
    simp only [List.map_map]
    apply List.map_congr_left
    intro e he
    have hmatch : artIdMatch e.idAttr = true := band_right ((List.mem_filter.mp he).2)
    have hp : List.isPrefixOf "art_".data e.idAttr = true := band_left (band_left hmatch)
    have hp' : "art_".data <+: e.idAttr := List.isPrefixOf_iff_prefix.mp hp
    simp [hp']

/-- Witness applying `c7_standard_article_extraction` to a concrete
identifier built from its characterization. -/
theorem c7_witness : artIdMatch "art_7c".data = true :=
  (c7_standard_article_extraction.1 "art_7c".data).mpr
    ⟨"7".data, "c".data, by decide, by decide, by decide, by decide⟩

/-! ### Manual-structure extraction (`data_resolver.py`, lines 360-548) -/

mutual

/-- Every element of the tree paired with its following siblings (the
`getnext()` chain), in document order. -/
def pairsIn : XElem → List (XElem × List XElem)
  | .mk _ _ _ _ ch _ => pairsInList ch

def pairsInList : List XElem → List (XElem × List XElem)
  | [] => []
  | e :: es => (e, es) :: (pairsIn e ++ pairsInList es)

end

mutual

/-- One step of the `elem.iter()` walk of `_extract_manual_structure_articles`
that splits text into before-break and after-break parts: at each non-root
node the code appends `elem.text` and `elem.tail` to the current side; at
the first `br` element it appends only the tail to the after side and flips
the flag.  Returns `(before, after, flag)`. -/
def walkBA : XElem → Bool → List (List Char) × List (List Char) × Bool
  | .mk tg _ _ tx ch tl, seen =>
    if !seen && tg == "br" then
      let tailPart := if tl ≠ [] then [tl] else []
      let r := walkBAList ch true
      (r.1, tailPart ++ r.2.1, r.2.2)
    else
      let parts := (if tx ≠ [] then [tx] else []) ++ (if tl ≠ [] then [tl] else [])
      let r := walkBAList ch seen
      if seen then (r.1, parts ++ r.2.1, r.2.2)
      else (parts ++ r.1, r.2.1, r.2.2)

def walkBAList : List XElem → Bool → List (List Char) × List (List Char) × Bool
  | [], seen => ([], [], seen)
  | e :: rest, seen =>
    let r1 := walkBA e seen
    let r2 := walkBAList rest r1.2.2
    (r1.1 ++ r2.1, r1.2.1 ++ r2.2.1, r2.2.2)

end

/-- The root element contributes only its leading text (to the before side);
its tail is skipped by the `continue`. -/
def textBeforeAfterBr (root : XElem) : List (List Char) × List (List Char) :=
  let rootText := if root.text ≠ [] then [root.text] else []
  let r := walkBAList root.children false
  (rootText ++ r.1, r.2.1)

/-- `re.sub(r'(\d)\s+(\d)', r'\1\2', s)`: one non-overlapping left-to-right
pass (the second digit of a match is consumed and cannot anchor the next). -/
def collapseDigitGaps : List Char → List Char
  | [] => []
  | c :: rest =>
    if isDig c && !(rest.takeWhile isPySpace).isEmpty then
      match hm : rest.dropWhile isPySpace with
      | d :: rest2 =>
        if isDig d then c :: d :: collapseDigitGaps rest2
        else c :: collapseDigitGaps rest
      | [] => c :: collapseDigitGaps rest
    else c :: collapseDigitGaps rest
termination_by l => l.length
decreasing_by
  · have h1 : (rest.dropWhile isPySpace).length ≤ rest.length :=
      List.Sublist.length_le (List.dropWhile_sublist isPySpace)
    rw [hm] at h1
    simp only [List.length_cons] at h1 ⊢
    omega
  · simp
  · simp
  · simp

/-- `re.search(r'Article\s+(\d+)', s, re.IGNORECASE)` attempted at one
position: the literal (case-insensitively), at least one whitespace
character, then a maximal digit run (group 1). -/
def articleNumAt (l : List Char) : Option (List Char) :=
  if (l.take 7).map Char.toLower == "article".data then
    let rest := l.drop 7
    let sp := rest.takeWhile isPySpace
    if !sp.isEmpty then
      let ds := (rest.drop sp.length).takeWhile isDig
      if !ds.isEmpty then some ds else none
    else none
  else none

/-- `re.search`: leftmost matching position. -/
def searchArticleNum : List Char → Option (List Char)
  | [] => none
  | c :: rest =>
    match articleNumAt (c :: rest) with
    | some ds => some ds
    | none => searchArticleNum rest

/-- Group 1 of the article-number search, `""` when there is no match. -/
def parseArticleNum (l : List Char) : List Char :=
  match searchArticleNum l with
  | some ds => ds
  | none => []

/-- The stop set ending an article's or annex's sibling walk. -/
def stopClasses : List String := ["Titrearticle", "Annexetitre", "Fait", "Fichefinanciretitre"]

/-- `_extract_manual_structure_articles`, processing one `Titrearticle`
paragraph (with its following siblings) at a time.  When the parsed title is
empty and there is no following sibling, `next_elem.attrib` dereferences
`None` and raises an `AttributeError`: the routine's handler then returns
the units accumulated so far. -/
def manualArticlesGo (celex : List Char) :
    List (XElem × List XElem) → List TextUnit → List TextUnit × Option Unit
  | [], acc => (acc, none)
  | (el, sibs) :: rest, acc =>
    let numTitle :=
      if el.descendants.any (fun n => n.tag == "br") then
        let ba := textBeforeAfterBr el
        (parseArticleNum (collapseDigitGaps (joinSp ba.1)), pyStrip (joinSp ba.2))
      else
        match (el.descendants.filter (fun n => n.tag == "span")).head? with
        | some s0 => (parseArticleNum (collapseDigitGaps (extract_text s0)), ([] : List Char))
        | none => ([], [])
    match (if numTitle.2 = [] then
        (match sibs with
         | [] => none
         | ne :: sibs2 =>
           some (if ne.cls == "Titrearticle" then
               (pyStrip (joinSp (ne.children.map extract_text)), sibs2)
             else (numTitle.2, ne :: sibs2)))
      else some (numTitle.2, sibs)) with
    | none => (acc, some ())
    | some (title1, sibs1) =>
      let body := sibs1.takeWhile (fun s => !stopClasses.any (fun c => s.cls == c))
      let acc' := if numTitle.1 ≠ [] then
          acc ++ [{ celex_id := celex, utype := "article", number := numTitle.1,
                    title := some (normalizeL title1),
                    text := normalizeL (pyStrip (List.flatten (body.map extract_text))) }]
        else acc
      manualArticlesGo celex rest acc'

def extract_manual_structure_articles (celex : List Char) (tree : XElem) :
    List TextUnit × Option Unit :=
  manualArticlesGo celex
    ((pairsIn tree).filter (fun pr => pr.1.tag == "p" && pr.1.cls == "Titrearticle")) []

/-- The roman-numeral letter class `[IVXLCDMivxlcdm]` (no digits). -/
def isRomanLetter (c : Char) : Bool :=
  c == 'I' || c == 'V' || c == 'X' || c == 'L' || c == 'C' || c == 'D' || c == 'M' ||
  c == 'i' || c == 'v' || c == 'x' || c == 'l' || c == 'c' || c == 'd' || c == 'm'

/-- `re.search(r'ANNEX\s+([IVXLCDMivxlcdm]+)', s, re.IGNORECASE)` at one
position; returns group 1 and the match-end offset. -/
def annexRomanAt (l : List Char) : Option (List Char × Nat) :=
  if (l.take 5).map Char.toLower == "annex".data then
    let rest := l.drop 5
    let sp := rest.takeWhile isPySpace
    if !sp.isEmpty then
      let ds := (rest.drop sp.length).takeWhile isRomanLetter
      if !ds.isEmpty then some (ds, 5 + sp.length + ds.length) else none
    else none
  else none

def searchAnnexRoman : List Char → Option (List Char × Nat)
  | [] => none
  | c :: rest =>
    match annexRomanAt (c :: rest) with
    | some r => some r
    | none =>
      match searchAnnexRoman rest with
      | some (g, e) => some (g, e + 1)
      | none => none

/-- `_extract_manual_structure_annexes`, one `Annexetitre` paragraph at a
time; the same `None.attrib` dereference as in the article routine raises
when the title is empty and there is no following sibling. -/
def manualAnnexesGo (celex : List Char) :
    List (XElem × List XElem) → List TextUnit → List TextUnit × Option Unit
  | [], acc => (acc, none)
  | (el, sibs) :: rest, acc =>
    let title_text := extract_text el
    let numTitle := match searchAnnexRoman title_text with
      | some (g, e) => (g, pyStrip (title_text.drop e))
      | none => (([] : List Char), ([] : List Char))
    match (if numTitle.2 = [] then
        (match sibs with
         | [] => none
         | ne :: sibs2 =>
           some (if ne.cls == "NormalCentered" then
               (pyStrip (joinSp (ne.children.map extract_text)), sibs2)
             else (numTitle.2, ne :: sibs2)))
      else some (numTitle.2, sibs)) with
    | none => (acc, some ())
    | some (title1, sibs1) =>
      let body := sibs1.takeWhile (fun s => !stopClasses.any (fun c => s.cls == c))
      manualAnnexesGo celex rest
        (acc ++ [{ celex_id := celex, utype := "annex", number := numTitle.1,
                   title := some title1, text := pyStrip (joinSp (body.map extract_text)) }])

def extract_manual_structure_annexes (celex : List Char) (tree : XElem) :
    List TextUnit × Option Unit :=
  manualAnnexesGo celex
    ((pairsIn tree).filter (fun pr => pr.1.tag == "p" && pr.1.cls == "Annexetitre")) []

/-- `re.search(r'\((\d+)\)', s)`: leftmost parenthesized integer. -/
def searchParenNum : List Char → Option (List Char)
  | [] => none
  | c :: rest =>
    if c == '(' then
      (match hds : rest.takeWhile isDig with
       | [] => searchParenNum rest
       | d :: ds =>
         match rest.drop (d :: ds).length with
         | ')' :: _ => some (d :: ds)
         | _ => searchParenNum rest)
    else searchParenNum rest

/-- `_extract_manual_structure_recitals`: one unit per
`p class='li ManualConsidrant'`; the number is the parenthesized integer of
the first nested `span class='num'`, else empty. -/
def extract_manual_structure_recitals (celex : List Char) (tree : XElem) :
    List TextUnit × Option Unit :=
  ((tree.descendants.filter (fun e =>
      e.tag == "p" && e.cls == "li ManualConsidrant")).map (fun recital =>
    { celex_id := celex
      utype := "recital"
      number := match (recital.descendants.filter (fun n =>
          n.tag == "span" && n.cls == "num")).head? with
        | some numSpan =>
          (match searchParenNum (extract_text numSpan) with
           | some n => n
           | none => [])
        | none => []
      title := none
      text := normalizeL (extract_text recital) }), none)

/-! ### Text-only extraction (`data_resolver.py`, lines 550-679) -/

/-- `re.match(annex_pattern, s)` with
`annex_pattern = ^ANNEX\s*([IVXLCDMivxlcdm0-9]*)(.*)` (IGNORECASE): succeeds
exactly when the text starts with `annex` case-insensitively; both groups
may be empty. -/
def matchAnnexStart (l : List Char) : Option (List Char × List Char) :=
  if (l.take 5).map Char.toLower == "annex".data then
    let rest := l.drop 5
    let sp := rest.takeWhile isPySpace
    let ds := (rest.drop sp.length).takeWhile isRomanOrDigit
    some (ds, (rest.drop sp.length).drop ds.length)
  else none

/-- Python `str(n)` for the recital counter. -/
def natStr (n : Nat) : List Char := (toString n).data

/-- The cursor loop of `_extract_text_only_units`: one forward pass over the
paragraphs; a `Whereas` paragraph is a sequentially numbered recital; an
`Article <n>` paragraph collects following paragraphs until the next
article/annex trigger; an `ANNEX ...` paragraph collects until the next
annex trigger. -/
def textOnlyGo (celex : List Char) (wantRec wantArt wantAnx : Bool) :
    List XElem → Nat → List TextUnit → List TextUnit
  | [], _, acc => acc
  | p :: rest, cnt, acc =>
    let p_text := pyStrip (extract_text p)
    if wantRec && List.isPrefixOf "Whereas".data p_text then
      textOnlyGo celex wantRec wantArt wantAnx rest (cnt + 1)
        (acc ++ [{ celex_id := celex, utype := "recital", number := natStr (cnt + 1),
                   title := none, text := normalizeL p_text }])
    else
      match (if wantArt then articleNumAt p_text else none) with
      | some num =>
        let body := rest.takeWhile (fun q =>
          let nt := pyStrip (extract_text q)
          !(articleNumAt nt).isSome && !(matchAnnexStart nt).isSome)
        textOnlyGo celex wantRec wantArt wantAnx (rest.drop body.length) cnt
          (acc ++ [{ celex_id := celex, utype := "article", number := num,
                     title := some [],
                     text := normalizeL (pyStrip (joinSp
                       (body.map (fun q => pyStrip (extract_text q))))) }])
      | none =>
        match (if wantAnx then matchAnnexStart p_text else none) with
        | some numRest =>
          let body := rest.takeWhile (fun q =>
            !(matchAnnexStart (pyStrip (extract_text q))).isSome)
          textOnlyGo celex wantRec wantArt wantAnx (rest.drop body.length) cnt
            (acc ++ [{ celex_id := celex, utype := "annex", number := numRest.1,
                       title := some (normalizeL (pyStrip numRest.2)),
                       text := normalizeL (pyStrip (joinSp
                         (body.map (fun q => pyStrip (extract_text q))))) }])
        | none => textOnlyGo celex wantRec wantArt wantAnx rest cnt acc
termination_by ps _ _ => ps.length
decreasing_by
  · simp
  · have := List.length_drop (List.takeWhile (fun q =>
      !(articleNumAt (pyStrip (extract_text q))).isSome &&
        !(matchAnnexStart (pyStrip (extract_text q))).isSome) rest).length rest
    simp only [List.length_cons]
    omega
  · have := List.length_drop (List.takeWhile (fun q =>
      !(matchAnnexStart (pyStrip (extract_text q))).isSome) rest).length rest
    simp only [List.length_cons]
    omega
  · simp

/-- `_extract_text_only_units`: early return when no section was requested,
a warning-and-empty result when no `TexteOnly` div exists, else the cursor
loop over the paragraphs inside it.  The body is pure, so the surrounding
`try` never fires. -/
def extract_text_only_units (celex : List Char) (wantRec wantArt wantAnx : Bool)
    (tree : XElem) : List TextUnit × Option Unit :=
  if !wantArt && !wantAnx && !wantRec then ([], none)
  else
    match (tree.descendants.filter (fun e =>
        e.tag == "div" && e.idAttr == "TexteOnly".data)).head? with
    | none => ([], none)
    | some d =>
      (textOnlyGo celex wantRec wantArt wantAnx
        (d.descendants.filter (fun e => e.tag == "p")) 0 [], none)

/-! ### Collaborator oracles (`cellar_restapi` / `cellar_sparql` boundary)

`Except.error` models a raised exception (network failure, parse failure,
missing dictionary key). -/

structure PyDate where
  year : Int
  month : Int
  day : Int
deriving DecidableEq, Repr

/-- A SPARQL `date` value: either a native date object or a string. -/
inductive DateVal where
  | dateObj (d : PyDate)
  | strVal (s : List Char)

structure Collaborators where
  sparqlTitle : List Char → Except Unit (Option (List Char))
  sparqlDate : List Char → Except Unit (Option DateVal)
  sparqlRelations : List Char → Except Unit (List (List Char × List (List Char)))
  metaXml : List Char → Except Unit XElem
  fetchXhtml : List Char → Except Unit Markup
  fetchPlainHtml : List Char → Except Unit Markup
  fetchAnnexXhtml : List Char → Except Unit Markup
  fetchAnnexPlainHtml : List Char → Except Unit Markup

/-- The `raw_full_text_xhtml` property: fetch then `_flatten_content_divs`. -/
def raw_full_text_xhtml (C : Collaborators) (celex : List Char) : Except Unit Markup :=
  (C.fetchXhtml celex).map flatten_content_divs

/-- The `raw_full_text_plain_html` property. -/
def raw_full_text_plain_html (C : Collaborators) (celex : List Char) : Except Unit Markup :=
  (C.fetchPlainHtml celex).map flatten_content_divs

/-- The `original_celex` property: the consolidated-to-original conversion
(the `ValueError` branch is unreachable at its call sites, which are all
guarded by `is_consolidated_celex`). -/
def origCelex (celex : List Char) : List Char :=
  match convert_consolidated_celex_to_original celex with
  | .ok o => o
  | .error _ => celex

/-! ### `DataResolver.get_title` (`data_resolver.py`, lines 141-186) -/

/-- ElementTree `findtext('.//T1/T2/T3')`: the text of the first
`T3`-child of a `T2`-child of a `T1`-descendant, in document order (an
element found with no text yields the empty string, like `findtext`). -/
def findTextPath3 (root : XElem) (t1 t2 t3 : String) : Option (List Char) :=
  ((((root.descendants.filter (fun e => e.tag == t1)).flatMap
      (fun e => e.children.filter (fun c => c.tag == t2))).flatMap
      (fun e => e.children.filter (fun c => c.tag == t3))).head?).map XElem.text

/-- The `eli-main-title` extraction of `get_title`'s second fallback:
`" ".join(normalize_string(t) for t in div.itertext() if t.strip())`, empty
when no such div exists. -/
def extractMainTitle (tree : XElem) : List Char :=
  match (tree.descendants.filter (fun e =>
      e.tag == "div" && e.cls == "eli-main-title")).head? with
  | none => []
  | some d =>
    joinSp ((d.itertext.filter (fun t => t.any (fun ch => !isPySpace ch))).map normalizeL)

/-- The sources `get_title` consults, in the order it consults them. -/
inductive TitleSrc where
  | sq
  | meta
  | htmlSrc
deriving DecidableEq, Repr

/-- `get_title` with an attempt trace: the SPARQL title (returned normalized
when truthy), else the metadata expression title (normalized when truthy),
else the XHTML main-title heading, else the `"[Unavailable]"` sentinel.
Every failure (exception or falsy value) falls through to the next source. -/
def get_title_traced (C : Collaborators) (celex : List Char) : List Char × List TitleSrc :=
  let step3 : List Char × List TitleSrc :=
    match raw_full_text_xhtml C celex with
    | .error _ => ("[Unavailable]".data, [.sq, .meta, .htmlSrc])
    | .ok mk =>
      match parseXmlM mk with
      | .error _ => ("[Unavailable]".data, [.sq, .meta, .htmlSrc])
      | .ok tree =>
        let ti := extractMainTitle tree
        if ti ≠ [] then (ti, [.sq, .meta, .htmlSrc])
        else ("[Unavailable]".data, [.sq, .meta, .htmlSrc])
  let step2 : List Char × List TitleSrc :=
    match C.metaXml celex with
    | .error _ => step3
    | .ok mx =>
      match findTextPath3 mx "EXPRESSION" "EXPRESSION_TITLE" "VALUE" with
      | some t => if t ≠ [] then (normalizeL t, [.sq, .meta]) else step3
      | none => step3
  match C.sparqlTitle celex with
  | .error _ => step2
  | .ok none => step2
  | .ok (some t) => if t ≠ [] then (normalizeL t, [.sq]) else step2

def get_title (C : Collaborators) (celex : List Char) : List Char :=
  (get_title_traced C celex).1

/-! ### `DataResolver.get_date_adopted` (`data_resolver.py`, lines 219-269) -/

def intDigitsAfter : List Char → Option (List Char)
  | [] => some []
  | '_' :: rest =>
    match rest with
    | c :: rest2 => if isDig c then (intDigitsAfter rest2).map (c :: ·) else none
    | [] => none
  | c :: rest => if isDig c then (intDigitsAfter rest).map (c :: ·) else none

/-- Python `int()` digit body: digits with optional single underscores
between them. -/
def intDigits : List Char → Option (List Char)
  | [] => none
  | c :: rest => if isDig c then (intDigitsAfter rest).map (c :: ·) else none

def digitsToNat (ds : List Char) : Nat :=
  ds.foldl (fun n c => 10 * n + (c.toNat - 48)) 0

/-- Python `int(s)`: strip whitespace, optional sign, digit body; everything
else raises `ValueError`. -/
def pyInt (s : List Char) : Except Unit Int :=
  match pyStrip s with
  | '+' :: rest =>
    (match intDigits rest with
     | some ds => Except.ok (Int.ofNat (digitsToNat ds))
     | none => Except.error ())
  | '-' :: rest =>
    (match intDigits rest with
     | some ds => Except.ok (-(Int.ofNat (digitsToNat ds)))
     | none => Except.error ())
  | t =>
    (match intDigits t with
     | some ds => Except.ok (Int.ofNat (digitsToNat ds))
     | none => Except.error ())

/-- `int()` applied to a `findtext` result; `int(None)` raises `TypeError`. -/
def pyIntOpt : Option (List Char) → Except Unit Int
  | none => Except.error ()
  | some s => pyInt s

def isLeapYear (y : Int) : Bool := y % 4 == 0 && (y % 100 != 0 || y % 400 == 0)

def daysInMonth (y m : Int) : Int :=
  if m == 2 then (if isLeapYear y then 29 else 28)
  else if m == 4 || m == 6 || m == 9 || m == 11 then 30
  else 31

/-- `datetime.date(y, m, d)`: raises `ValueError` outside the calendar
range. -/
def mkDate (y m d : Int) : Except Unit PyDate :=
  if 1 ≤ y ∧ y ≤ 9999 ∧ 1 ≤ m ∧ m ≤ 12 ∧ 1 ≤ d ∧ d ≤ daysInMonth y m then
    Except.ok ⟨y, m, d⟩
  else Except.error ()

/-- `datetime.datetime.strptime(s, "%Y-%m-%d")`: exactly four year digits,
a dash, one or two month digits, a dash, one or two day digits consuming the
whole string, validated by the date constructor. -/
def parseYMD (s : List Char) : Except Unit PyDate :=
  match s with
  | y1 :: y2 :: y3 :: y4 :: '-' :: rest =>
    if isDig y1 && isDig y2 && isDig y3 && isDig y4 then
      let mrun := rest.takeWhile isDig
      if 1 ≤ mrun.length ∧ mrun.length ≤ 2 then
        match rest.drop mrun.length with
        | '-' :: drest =>
          let drun := drest.takeWhile isDig
          if 1 ≤ drun.length ∧ drun.length ≤ 2 ∧ drest.drop drun.length = [] then
            mkDate (Int.ofNat (digitsToNat [y1, y2, y3, y4]))
              (Int.ofNat (digitsToNat mrun)) (Int.ofNat (digitsToNat drun))
          else Except.error ()
        | _ => Except.error ()
      else Except.error ()
    else Except.error ()
  | _ => Except.error ()

def monthNames : List (List Char) :=
  ["january".data, "february".data, "march".data, "april".data, "may".data, "june".data,
   "july".data, "august".data, "september".data, "october".data, "november".data,
   "december".data]

/-- `datetime.datetime.strptime(month_str, "%B").month`: case-insensitive
full English month names. -/
def month_from_name (s : List Char) : Except Unit Int :=
  match monthNames.findIdx? (fun nm => nm == s.map Char.toLower) with
  | some i => Except.ok (Int.ofNat (i + 1))
  | none => Except.error ()

/-- `re.search(r'(\d{1,2})\s([A-Za-z]{3,9})\s(\d{4})', title)` continuation
after the day digits: a single whitespace, a letter run of length 3-9, a
single whitespace, four digits. -/
def dmyAfterDay (dayDs : List Char) (rest : List Char) :
    Option (List Char × List Char × List Char) :=
  match rest with
  | w :: rest2 =>
    if isPySpace w then
      let ls := rest2.takeWhile Char.isAlpha
      if 3 ≤ ls.length ∧ ls.length ≤ 9 then
        match rest2.drop ls.length with
        | w2 :: rest3 =>
          if isPySpace w2 then
            (if (rest3.take 4).length = 4 ∧ (rest3.take 4).all isDig then
              some (dayDs, ls, rest3.take 4)
            else none)
          else none
        | [] => none
      else none
    else none
  | [] => none

/-- One attempt of the date-phrase pattern at the current position: `\d{1,2}`
greedily (two digits first, then one). -/
def dmyAt : List Char → Option (List Char × List Char × List Char)
  | [] => none
  | d1 :: rest =>
    if isDig d1 then
      match rest with
      | d2 :: rest2 =>
        if isDig d2 then
          match dmyAfterDay [d1, d2] rest2 with
          | some r => some r
          | none => dmyAfterDay [d1] rest
        else dmyAfterDay [d1] rest
      | [] => none
    else none

/-- `re.search`: leftmost position at which the date phrase matches. -/
def searchDMY : List Char → Option (List Char × List Char × List Char)
  | [] => none
  | c :: rest =>
    match dmyAt (c :: rest) with
    | some r => some r
    | none => searchDMY rest

/-- `get_date_adopted`: when the identifier is consolidated the SPARQL and
metadata lookups run against the original identifier's resolver, but the
title for the date-phrase fallback is `self.get_title()` on this resolver. -/
def get_date_adopted (C : Collaborators) (celex : List Char) : Option PyDate :=
  let rcelex := if is_consolidated_celex celex then origCelex celex else celex
  let fallback2 : Option PyDate :=
    let title := get_title C celex
    if title = "[Unavailable]".data then none
    else
      match searchDMY title with
      | none => none
      | some (dS, mS, yS) =>
        match pyInt dS, month_from_name mS, pyInt yS with
        | .ok dayN, .ok mN, .ok yN =>
          (match mkDate yN mN dayN with
           | .ok dt => some dt
           | .error _ => none)
        | _, _, _ => none
  let fallback1 : Option PyDate :=
    match C.metaXml rcelex with
    | .error _ => fallback2
    | .ok mx =>
      match (((mx.descendants.filter (fun e => e.tag == "WORK")).flatMap
          (fun e => e.children.filter (fun c => c.tag == "DATE_DOCUMENT"))).head?) with
      | none => fallback2
      | some dd =>
        match pyIntOpt ((dd.children.filter (fun c => c.tag == "YEAR")).head?.map XElem.text),
              pyIntOpt ((dd.children.filter (fun c => c.tag == "MONTH")).head?.map XElem.text),
              pyIntOpt ((dd.children.filter (fun c => c.tag == "DAY")).head?.map XElem.text) with
        | .ok y, .ok m, .ok d =>
          (match mkDate y m d with
           | .ok dt => some dt
           | .error _ => fallback2)
        | _, _, _ => fallback2
  match C.sparqlDate rcelex with
  | .error _ => fallback1
  | .ok none => fallback1
  | .ok (some (.dateObj d)) => some d
  | .ok (some (.strVal s)) =>
    if s = [] then fallback1
    else
      match parseYMD s with
      | .ok d => some d
      | .error _ => fallback1

/-- Modelled from the spec's words, for comparison: "if the identifier is
consolidated, all lookups below run against the original identifier's
resolver" — identical to `get_date_adopted` except that the date-phrase
fallback reads the title of the original identifier's resolver. -/
def get_date_adopted_specvariant (C : Collaborators) (celex : List Char) : Option PyDate :=
  let rcelex := if is_consolidated_celex celex then origCelex celex else celex
  let fallback2 : Option PyDate :=
    let title := get_title C rcelex
    if title = "[Unavailable]".data then none
    else
      match searchDMY title with
      | none => none
      | some (dS, mS, yS) =>
        match pyInt dS, month_from_name mS, pyInt yS with
        | .ok dayN, .ok mN, .ok yN =>
          (match mkDate yN mN dayN with
           | .ok dt => some dt
           | .error _ => none)
        | _, _, _ => none
  let fallback1 : Option PyDate :=
    match C.metaXml rcelex with
    | .error _ => fallback2
    | .ok mx =>
      match (((mx.descendants.filter (fun e => e.tag == "WORK")).flatMap
          (fun e => e.children.filter (fun c => c.tag == "DATE_DOCUMENT"))).head?) with
      | none => fallback2
      | some dd =>
        match pyIntOpt ((dd.children.filter (fun c => c.tag == "YEAR")).head?.map XElem.text),
              pyIntOpt ((dd.children.filter (fun c => c.tag == "MONTH")).head?.map XElem.text),
              pyIntOpt ((dd.children.filter (fun c => c.tag == "DAY")).head?.map XElem.text) with
        | .ok y, .ok m, .ok d =>
          (match mkDate y m d with
           | .ok dt => some dt
           | .error _ => fallback2)
        | _, _, _ => fallback2
  match C.sparqlDate rcelex with
  | .error _ => fallback1
  | .ok none => fallback1
  | .ok (some (.dateObj d)) => some d
  | .ok (some (.strVal s)) =>
    if s = [] then fallback1
    else
      match parseYMD s with
      | .ok d => some d
      | .error _ => fallback1

/-! ### `DataResolver.get_text_units` (`data_resolver.py`, lines 681-804)
and `get_relations` (lines 806-841) -/

/-- The nine extraction routines the dispatcher may call (parameterised so
that the dispatch logic can be stated independently of the routine
bodies). -/
structure Extractors where
  stdRec : XElem → List TextUnit × Option Unit
  stdArt : XElem → List TextUnit × Option Unit
  stdAnx : XElem → List TextUnit × Option Unit
  manRec : XElem → List TextUnit × Option Unit
  manArt : XElem → List TextUnit × Option Unit
  manAnx : XElem → List TextUnit × Option Unit
  toRec : XElem → List TextUnit × Option Unit
  toArt : XElem → List TextUnit × Option Unit
  toAnx : XElem → List TextUnit × Option Unit

/-- The resolver's own extraction routines. -/
def resolverExtractors (celex : List Char) : Extractors :=
  { stdRec := extract_standard_structure_recitals celex
    stdArt := extract_standard_structure_articles celex
    stdAnx := extract_standard_structure_annexes celex
    manRec := extract_manual_structure_recitals celex
    manArt := extract_manual_structure_articles celex
    manAnx := extract_manual_structure_annexes celex
    toRec := extract_text_only_units celex true false false
    toArt := extract_text_only_units celex false true false
    toAnx := extract_text_only_units celex false false true }

def validStructure (t : XElem) : Bool :=
  is_standard_structure t || is_manual_structure t || is_text_only_structure t

/-- Lines 689-703: parse the XHTML and validate its structure; on any
failure parse the plain HTML; when that fails too the method returns the
empty list (`none` here). -/
def parseMainTree (C : Collaborators) (celex : List Char) : Option XElem :=
  let plainFallback : Option XElem :=
    match raw_full_text_plain_html C celex with
    | .error _ => none
    | .ok mk =>
      match parseHtmlM mk with
      | .error _ => none
      | .ok t => some t
  match raw_full_text_xhtml C celex with
  | .error _ => plainFallback
  | .ok mk =>
    match parseXmlM mk with
    | .error _ => plainFallback
    | .ok t => if validStructure t then some t else plainFallback

/-- Lines 705-727: for a consolidated identifier with recitals requested,
re-fetch via the original identifier's resolver.  `recitals_tree` keeps its
last assigned value on failure: when the XHTML parses but its structure is
invalid, the plain-HTML fallback failing leaves the invalid XHTML tree in
place (the argument of `fallbackPlain` in each branch mirrors the variable's
state at the corresponding `except`). -/
def recitalsTreeFor (C : Collaborators) (celex : List Char) (includeRec : Bool)
    (tree : XElem) : XElem :=
  if includeRec && is_consolidated_celex celex then
    let oc := origCelex celex
    let fallbackPlain : XElem → XElem := fun cur =>
      match raw_full_text_plain_html C oc with
      | .error _ => cur
      | .ok mk2 =>
        match parseHtmlM mk2 with
        | .error _ => cur
        | .ok t2 => t2
    match raw_full_text_xhtml C oc with
    | .error _ => fallbackPlain tree
    | .ok mk =>
      match parseXmlM mk with
      | .error _ => fallbackPlain tree
      | .ok t' => if validStructure t' then t' else fallbackPlain t'
  else tree

/-- Lines 729-752: for a proposal with annexes requested, fetch the annex
markup (flattened before parsing); same mutation-faithful fallback as for
the recitals tree. -/
def annexesTreeFor (C : Collaborators) (celex : List Char) (includeAnx : Bool)
    (tree : XElem) : XElem :=
  if includeAnx && get_document_type celex == "proposal".data then
    let fallbackPlain : XElem → XElem := fun cur =>
      match C.fetchAnnexPlainHtml celex with
      | .error _ => cur
      | .ok mk2 =>
        match parseHtmlM (flatten_content_divs mk2) with
        | .error _ => cur
        | .ok t2 => t2
    match C.fetchAnnexXhtml celex with
    | .error _ => fallbackPlain tree
    | .ok mk =>
      match parseXmlM (flatten_content_divs mk) with
      | .error _ => fallbackPlain tree
      | .ok t' => if validStructure t' then t' else fallbackPlain t'
  else tree

/-- The per-section structure dispatch (lines 758-771 for recitals; the
article and annex dispatches are identical up to the routine set).  The
`.1` projection is the unit list the routine's own `except` handler
returns. -/
def dispatchRec (b : Extractors) (t : XElem) : List TextUnit :=
  if is_standard_structure t then (b.stdRec t).1
  else if is_manual_structure t then (b.manRec t).1
  else if is_text_only_structure t then (b.toRec t).1
  else []

def dispatchArt (b : Extractors) (t : XElem) : List TextUnit :=
  if is_standard_structure t then (b.stdArt t).1
  else if is_manual_structure t then (b.manArt t).1
  else if is_text_only_structure t then (b.toArt t).1
  else []

def dispatchAnx (b : Extractors) (t : XElem) : List TextUnit :=
  if is_standard_structure t then (b.stdAnx t).1
  else if is_manual_structure t then (b.manAnx t).1
  else if is_text_only_structure t then (b.toAnx t).1
  else []

/-- `get_text_units`, with `Except.error` standing for a propagated
exception (the method never produces one: every branch of the model is
`Except.ok`). -/
def get_text_units (b : Extractors) (C : Collaborators) (celex : List Char)
    (includeRec includeArt includeAnx : Bool) : Except Unit (List TextUnit) :=
  if !includeArt && !includeAnx && !includeRec then Except.ok []
  else
    match parseMainTree C celex with
    | none => Except.ok []
    | some tree =>
      let rTree := recitalsTreeFor C celex includeRec tree
      let aTree := annexesTreeFor C celex includeAnx tree
      let units1 := if includeRec then dispatchRec b rTree else []
      let units2 := if includeArt then units1 ++ dispatchArt b tree else units1
      let units3 := if includeAnx then units2 ++ dispatchAnx b aTree else units2
      Except.ok units3

/-- The recital section of the result, in isolation. -/
def recSectionUnits (b : Extractors) (C : Collaborators) (celex : List Char)
    (includeRec includeArt includeAnx : Bool) : List TextUnit :=
  if !includeArt && !includeAnx && !includeRec then []
  else
    match parseMainTree C celex with
    | none => []
    | some tree =>
      if includeRec then dispatchRec b (recitalsTreeFor C celex includeRec tree) else []

/-- The article section of the result, in isolation. -/
def artSectionUnits (b : Extractors) (C : Collaborators) (celex : List Char)
    (includeRec includeArt includeAnx : Bool) : List TextUnit :=
  if !includeArt && !includeAnx && !includeRec then []
  else
    match parseMainTree C celex with
    | none => []
    | some tree => if includeArt then dispatchArt b tree else []

/-- The annex section of the result, in isolation. -/
def anxSectionUnits (b : Extractors) (C : Collaborators) (celex : List Char)
    (includeRec includeArt includeAnx : Bool) : List TextUnit :=
  if !includeArt && !includeAnx && !includeRec then []
  else
    match parseMainTree C celex with
    | none => []
    | some tree =>
      if includeAnx then dispatchAnx b (annexesTreeFor C celex includeAnx tree) else []

structure Relation where
  celex_source : List Char
  celex_target : List Char
  relation_type : List Char
deriving DecidableEq, Repr

/-- The relation records built from one SPARQL relations map (dict order =
insertion order; falsy targets skipped). -/
def relationsOf (src : List Char) (m : List (List Char × List (List Char))) : List Relation :=
  m.flatMap (fun rt => (rt.2.filter (fun tgt => tgt ≠ [])).map (fun tgt =>
    { celex_source := src, celex_target := tgt, relation_type := rt.1 }))

/-- `get_relations`.  The recursive call for the original act runs with
default flags; it absorbs its own failures, so the inner `try` never
fires. -/
def get_relations (C : Collaborators) (celex : List Char)
    (includeRel includeOrig : Bool) : Except Unit (List Relation) :=
  if !includeRel then Except.ok []
  else
    match C.sparqlRelations celex with
    | .error _ => Except.ok []
    | .ok m =>
      let relations := relationsOf celex m
      if includeOrig && is_consolidated_celex celex then
        let inner := match C.sparqlRelations (origCelex celex) with
          | .error _ => []
          | .ok m' => relationsOf (origCelex celex) m'
        Except.ok (relations ++ inner)
      else Except.ok relations

/-- The relation records of `get_relations`, in isolation. -/
def relationRecords (C : Collaborators) (celex : List Char)
    (includeRel includeOrig : Bool) : List Relation :=
  if !includeRel then []
  else
    match C.sparqlRelations celex with
    | .error _ => []
    | .ok m =>
      relationsOf celex m ++
        (if includeOrig && is_consolidated_celex celex then
          (match C.sparqlRelations (origCelex celex) with
           | .error _ => []
           | .ok m' => relationsOf (origCelex celex) m')
        else [])

/-! ### C4: the `get_title` fallback chain -/

/-- C4: `get_title` returns the first non-empty value in the fixed order —
(1) the structured-query title, normalized; (2) the metadata expression
title, normalized; (3) the XHTML main-title heading — and otherwise the
`"[Unavailable]"` sentinel.  The attempt trace records that each later
source is consulted only after every earlier source failed or was empty; in
particular, with an empty structured-query title and a non-empty metadata
title the result is the normalized metadata title and the structured-query
source was attempted first. -/
theorem c4_get_title_chain :
    (∀ (C : Collaborators) (celex t : List Char),
        C.sparqlTitle celex = Except.ok (some t) → t ≠ [] →
        get_title C celex = normalizeL t ∧
          (get_title_traced C celex).2 = [TitleSrc.sq]) ∧
    (∀ (C : Collaborators) (celex : List Char) (mx : XElem) (t : List Char),
        (C.sparqlTitle celex = Except.error () ∨ C.sparqlTitle celex = Except.ok none ∨
          C.sparqlTitle celex = Except.ok (some [])) →
        C.metaXml celex = Except.ok mx →
        findTextPath3 mx "EXPRESSION" "EXPRESSION_TITLE" "VALUE" = some t → t ≠ [] →
        get_title C celex = normalizeL t ∧
          (get_title_traced C celex).2 = [TitleSrc.sq, TitleSrc.meta]) ∧
    (∀ (C : Collaborators) (celex : List Char) (mk : Markup) (tree : XElem),
        (C.sparqlTitle celex = Except.error () ∨ C.sparqlTitle celex = Except.ok none ∨
          C.sparqlTitle celex = Except.ok (some [])) →
        (C.metaXml celex = Except.error () ∨
          (∃ mx, C.metaXml celex = Except.ok mx ∧
            (findTextPath3 mx "EXPRESSION" "EXPRESSION_TITLE" "VALUE" = none ∨
             findTextPath3 mx "EXPRESSION" "EXPRESSION_TITLE" "VALUE" = some []))) →
        raw_full_text_xhtml C celex = Except.ok mk →
        parseXmlM mk = Except.ok tree → extractMainTitle tree ≠ [] →
        get_title C celex = extractMainTitle tree ∧
          (get_title_traced C celex).2 = [TitleSrc.sq, TitleSrc.meta, TitleSrc.htmlSrc]) ∧
    (∀ (C : Collaborators) (celex : List Char),
        (C.sparqlTitle celex = Except.error () ∨ C.sparqlTitle celex = Except.ok none ∨
          C.sparqlTitle celex = Except.ok (some [])) →
        (C.metaXml celex = Except.error () ∨
          (∃ mx, C.metaXml celex = Except.ok mx ∧
            (findTextPath3 mx "EXPRESSION" "EXPRESSION_TITLE" "VALUE" = none ∨
             findTextPath3 mx "EXPRESSION" "EXPRESSION_TITLE" "VALUE" = some []))) →
        (∀ (mk : Markup) (tree : XElem), raw_full_text_xhtml C celex = Except.ok mk →
          parseXmlM mk = Except.ok tree → extractMainTitle tree = []) →
        get_title C celex = "[Unavailable]".data) := by
  refine ⟨?_, ?_, ?_, ?_⟩
  · intro C celex t hS hne
    simp [get_title, get_title_traced, hS, hne]
  · intro C celex mx t hS hM hT hne
    rcases hS with hS | hS | hS <;>
      simp [get_title, get_title_traced, hS, hM, hT, hne]
  · intro C celex mk tree hS hM hX hP hne
    rcases hM with hM | ⟨mx, hM, hT⟩
    · rcases hS with hS | hS | hS <;>
        simp [get_title, get_title_traced, hS, hM, hX, hP, hne]
    · rcases hT with hT | hT <;> rcases hS with hS | hS | hS <;>
        simp [get_title, get_title_traced, hS, hM, hT, hX, hP, hne]
  · intro C celex hS hM hX
    cases hx : raw_full_text_xhtml C celex with
    | error e =>
      rcases hM with hM | ⟨mx, hM, hT⟩
      · rcases hS with hS | hS | hS <;>
          simp [get_title, get_title_traced, hS, hM, hx]
      · rcases hT with hT | hT <;> rcases hS with hS | hS | hS <;>
          simp [get_title, get_title_traced, hS, hM, hT, hx]
    | ok mk =>
      cases hp : parseXmlM mk with
      | error e =>
        rcases hM with hM | ⟨mx, hM, hT⟩
        · rcases hS with hS | hS | hS <;>
            simp [get_title, get_title_traced, hS, hM, hx, hp]
        · rcases hT with hT | hT <;> rcases hS with hS | hS | hS <;>
            simp [get_title, get_title_traced, hS, hM, hT, hx, hp]
      | ok tree =>
        have h0 : extractMainTitle tree = [] := hX mk tree hx hp
        rcases hM with hM | ⟨mx, hM, hT⟩
        · rcases hS with hS | hS | hS <;>
            simp [get_title, get_title_traced, hS, hM, hx, hp, h0]
        · rcases hT with hT | hT <;> rcases hS with hS | hS | hS <;>
            simp [get_title, get_title_traced, hS, hM, hT, hx, hp, h0]

/-- The metadata record used by the instance: a `NOTICE` whose
`EXPRESSION/EXPRESSION_TITLE/VALUE` path holds a non-empty title. -/
def c4meta : XElem :=
  XElem.mk "NOTICE" "" [] []
    [XElem.mk "EXPRESSION" "" [] []
      [XElem.mk "EXPRESSION_TITLE" "" [] []
        [XElem.mk "VALUE" "" [] "Meta title".data [] []] []] []] []

/-- Collaborators for the instance: the structured query answers with an
empty title, the metadata record is `c4meta`, everything else raises. -/
def c4collabs : Collaborators :=
  { sparqlTitle := fun _ => Except.ok (some [])
    sparqlDate := fun _ => Except.error ()
    sparqlRelations := fun _ => Except.error ()
    metaXml := fun _ => Except.ok c4meta
    fetchXhtml := fun _ => Except.error ()
    fetchPlainHtml := fun _ => Except.error ()
    fetchAnnexXhtml := fun _ => Except.error ()
    fetchAnnexPlainHtml := fun _ => Except.error () }

theorem c4_witness :
    get_title c4collabs "32016R0679".data = normalizeL "Meta title".data ∧
    (get_title_traced c4collabs "32016R0679".data).2 = [TitleSrc.sq, TitleSrc.meta] :=
  c4_get_title_chain.2.1 c4collabs "32016R0679".data c4meta "Meta title".data
    (Or.inr (Or.inr rfl)) rfl (by decide) (by decide)

/-! ### C1: lookup targets of `get_date_adopted` for consolidated texts -/

/-- C1 (amended): for a consolidated identifier the result of
`get_date_adopted` depends only on the structured-query date and the
metadata record of the *original* identifier together with the title
resolved for *this* (consolidated) resolver — so the first two lookup steps
run against the original identifier's resolver while the date-phrase
fallback reads `self.get_title()`, not the original resolver's title. -/
theorem c1_date_lookup_targets (C C' : Collaborators) (celex : List Char)
    (hcons : is_consolidated_celex celex = true)
    (hS : C.sparqlDate (origCelex celex) = C'.sparqlDate (origCelex celex))
    (hM : C.metaXml (origCelex celex) = C'.metaXml (origCelex celex))
    (hT : get_title C celex = get_title C' celex) :
    get_date_adopted C celex = get_date_adopted C' celex := by
  simp only [get_date_adopted, hcons, if_true]
  rw [hS, hM, hT]

def c1celex : List Char := "02016R0679-20210101".data

/-- Collaborators distinguishing the two resolvers by title: the
consolidated identifier's title carries the phrase `5 May 2020`, the
original identifier's title the phrase `27 April 2016`; every date and
metadata source raises. -/
def c1collabs : Collaborators :=
  { sparqlTitle := fun c =>
      if c = c1celex then Except.ok (some "Regulation of 5 May 2020".data)
      else if c = "32016R0679".data then Except.ok (some "Regulation of 27 April 2016".data)
      else Except.error ()
    sparqlDate := fun _ => Except.error ()
    sparqlRelations := fun _ => Except.error ()
    metaXml := fun _ => Except.error ()
    fetchXhtml := fun _ => Except.error ()
    fetchPlainHtml := fun _ => Except.error ()
    fetchAnnexXhtml := fun _ => Except.error ()
    fetchAnnexPlainHtml := fun _ => Except.error () }

/-- `c1collabs` with an irrelevant collaborator changed. -/
def c1collabsB : Collaborators :=
  { c1collabs with sparqlRelations := fun _ => Except.ok [] }

/-- The date-phrase fallback of `get_date_adopted` reads this resolver's
title (yielding 5 May 2020), not the original resolver's title as the spec
states (which would yield 27 April 2016): the two readings disagree on
`c1collabs`. -/
theorem c1_counterexample :
    is_consolidated_celex c1celex = true ∧
    get_date_adopted c1collabs c1celex = some ⟨2020, 5, 5⟩ ∧
    get_date_adopted_specvariant c1collabs c1celex = some ⟨2016, 4, 27⟩ ∧
    get_date_adopted c1collabs c1celex ≠ get_date_adopted_specvariant c1collabs c1celex := by
  refine ⟨by decide, by decide, by decide, by decide⟩

theorem c1_witness :
    get_date_adopted c1collabs c1celex = get_date_adopted c1collabsB c1celex :=
  c1_date_lookup_targets c1collabs c1collabsB c1celex (by decide) rfl rfl (by decide)

/-! ### C2: exception confinement in `get_text_units` / `get_relations` -/

/-- C2 (amended): `get_text_units` and `get_relations` always return a list
and never propagate an exception — under every collaborator behaviour the
result is `Except.ok` of the concatenation of the three independently
computed sections (resp. of the relation records), so a failure in one
section never disturbs the others.  However, an exception inside a
section's routine yields the units that routine had accumulated *before*
the exception for that section — not necessarily zero units (see the
counterexample). -/
theorem c2_exception_confinement :
    (∀ (b : Extractors) (C : Collaborators) (celex : List Char) (ir ia ian : Bool),
        get_text_units b C celex ir ia ian =
          Except.ok (recSectionUnits b C celex ir ia ian ++
            artSectionUnits b C celex ir ia ian ++ anxSectionUnits b C celex ir ia ian)) ∧
    (∀ (C : Collaborators) (celex : List Char) (ir io : Bool),
        get_relations C celex ir io = Except.ok (relationRecords C celex ir io)) := by
  constructor
  · intro b C celex ir ia ian
    simp only [get_text_units, recSectionUnits, artSectionUnits, anxSectionUnits]
    cases hg : (!ia && !ian && !ir) with
    | true => simp
    | false =>
      simp only [Bool.false_eq_true, if_false]
      cases hp : parseMainTree C celex with
      | none => simp
      | some tree => cases ir <;> cases ia <;> cases ian <;> simp [List.append_assoc]
  · intro C celex ir io
    simp only [get_relations, relationRecords]
    cases ir with
    | false => simp
    | true =>
      simp only [Bool.not_true, Bool.false_eq_true, if_false]
      cases hr : C.sparqlRelations celex with
      | error e => rfl
      | ok m =>
        cases hio : (io && is_consolidated_celex celex) <;> simp [hio]

def c2celex : List Char := "32024R1689".data

/-- A Manual-structure document whose second `Annexetitre` heading is the
bare word `ANNEX`: its parsed title is empty and it has no following
sibling, so `next_elem.attrib` dereferences `None` mid-loop. -/
def c2tree : XElem :=
  XElem.mk "html" "" [] []
    [XElem.mk "p" "Annexetitre" [] "ANNEX I First annex".data [] [],
     XElem.mk "p" "" [] "Body text.".data [] [],
     XElem.mk "p" "Annexetitre" [] "ANNEX".data [] []] []

def c2collabs : Collaborators :=
  { sparqlTitle := fun _ => Except.error ()
    sparqlDate := fun _ => Except.error ()
    sparqlRelations := fun _ => Except.error ()
    metaXml := fun _ => Except.error ()
    fetchXhtml := fun _ => Except.ok (Markup.xmlGood c2tree)
    fetchPlainHtml := fun _ => Except.error ()
    fetchAnnexXhtml := fun _ => Except.error ()
    fetchAnnexPlainHtml := fun _ => Except.error () }

/-- The annex routine raises mid-loop (`some ()`), yet the dispatcher's
result carries the one annex unit accumulated before the exception — the
claim's "zero units for that section" is refuted. -/
theorem c2_counterexample :
    (extract_manual_structure_annexes c2celex c2tree).2 = some () ∧
    get_text_units (resolverExtractors c2celex) c2collabs c2celex true true true =
      Except.ok [⟨c2celex, "annex", "I".data, some "First annex".data, "Body text.".data⟩] := by
  refine ⟨by decide, by decide⟩

/-! ### Per-unit invariants of the extraction routines (for C3 and C10) -/

theorem pyStrip_idem (l : List Char) : pyStrip (pyStrip l) = pyStrip l := by
  have hhead : ∀ d, (pyStrip l).head? = some d → isPySpace d = false := by
    intro d hd
    unfold pyStrip at hd
    have := head_trimRight _ d hd
    exact head_dropWhile_not isPySpace _ d this
  have hlast : ∀ d, (pyStrip l).getLast? = some d → isPySpace d = false := by
    intro d hd
    unfold pyStrip at hd
    exact getLast_trimRight_not_space _ d hd
  conv_lhs => rw [pyStrip]
  rw [trimLeft_eq_self _ hhead, trimRight_eq_self _ hlast]

theorem normalizeL_trimmed (l : List Char) : pyStrip (normalizeL l) = normalizeL l := by
  unfold normalizeL
  exact pyStrip_idem _

theorem extract_text_trimmed (e : XElem) : pyStrip (extract_text e) = extract_text e := by
  unfold extract_text
  exact normalizeL_trimmed _

/-- The invariant every produced unit satisfies: it is attributed to the
resolver's identifier, and its text (and title, when present) is
whitespace-trimmed. -/
def unitOK (celex : List Char) (u : TextUnit) : Prop :=
  u.celex_id = celex ∧ pyStrip u.text = u.text ∧ ∀ t, u.title = some t → pyStrip t = t

theorem unitsOK_std_rec (celex : List Char) (tree : XElem) :
    ∀ u ∈ (extract_standard_structure_recitals celex tree).1, unitOK celex u := by
  intro u hu
  simp only [extract_standard_structure_recitals, List.mem_map] at hu
  obtain ⟨r, hr, rfl⟩ := hu
  refine ⟨rfl, extract_text_trimmed r, ?_⟩
  intro t ht
  simp at ht

theorem unitsOK_std_art (celex : List Char) (tree : XElem) :
    ∀ u ∈ (extract_standard_structure_articles celex tree).1, unitOK celex u := by
  intro u hu
  simp only [extract_standard_structure_articles, List.mem_map] at hu
  obtain ⟨a, ha, rfl⟩ := hu
  refine ⟨rfl, pyStrip_idem _, ?_⟩
  intro t ht
  simp only [Option.some.injEq] at ht
  subst ht
  cases hh : (a.descendants.filter (fun e => e.tag == "div" && e.cls == "eli-title")).head? with
  | none => simp only [hh]; rfl
  | some d => simp only [hh]; exact extract_text_trimmed d

theorem anxFold_title_trimmed (chs : List XElem) :
    ∀ acc : List Char × List (List Char), pyStrip acc.1 = acc.1 →
      pyStrip ((chs.foldl (fun (acc : List Char × List (List Char)) child =>
        if child.cls == "oj-doc-ti" then
          (if !annexHeaderMatch (extract_text child) then (extract_text child, acc.2) else acc)
        else (acc.1, acc.2 ++ [extract_text child])) acc).1) =
      ((chs.foldl (fun (acc : List Char × List (List Char)) child =>
        if child.cls == "oj-doc-ti" then
          (if !annexHeaderMatch (extract_text child) then (extract_text child, acc.2) else acc)
        else (acc.1, acc.2 ++ [extract_text child])) acc).1) := by
  induction chs with
  | nil => intro acc h; simpa using h
  | cons c cs ih =>
    intro acc h
    simp only [List.foldl_cons]
    apply ih
    by_cases h1 : (c.cls == "oj-doc-ti") = true
    · rw [if_pos h1]
      by_cases h2 : (!annexHeaderMatch (extract_text c)) = true
      · rw [if_pos h2]
        exact extract_text_trimmed c
      · rw [if_neg h2]
        exact h
    · rw [if_neg h1]
      exact h

theorem unitsOK_std_anx (celex : List Char) (tree : XElem) :
    ∀ u ∈ (extract_standard_structure_annexes celex tree).1, unitOK celex u := by
  intro u hu
  simp only [extract_standard_structure_annexes, List.mem_map] at hu
  obtain ⟨a, ha, rfl⟩ := hu
  refine ⟨rfl, pyStrip_idem _, ?_⟩
  intro t ht
  simp only [Option.some.injEq] at ht
  subst ht
  exact anxFold_title_trimmed a.children ([], []) rfl

theorem unitsOK_man_rec (celex : List Char) (tree : XElem) :
    ∀ u ∈ (extract_manual_structure_recitals celex tree).1, unitOK celex u := by
  intro u hu
  simp only [extract_manual_structure_recitals, List.mem_map] at hu
  obtain ⟨r, hr, rfl⟩ := hu
  refine ⟨rfl, normalizeL_trimmed _, ?_⟩
  intro t ht
  simp at ht

theorem mem_if_append_singleton {α : Type} (c : Prop) [Decidable c] (acc : List α)
    (x v : α) (hv : v ∈ (if c then acc ++ [x] else acc)) : v ∈ acc ∨ v = x := by
  split at hv
  · rcases List.mem_append.mp hv with h | h
    · exact Or.inl h
    · simp only [List.mem_singleton] at h
      exact Or.inr h
  · exact Or.inl hv

theorem unitsOK_man_art_go (celex : List Char) :
    ∀ (prs : List (XElem × List XElem)) (acc : List TextUnit),
      (∀ u ∈ acc, unitOK celex u) →
      ∀ u ∈ (manualArticlesGo celex prs acc).1, unitOK celex u := by
  intro prs
  induction prs with
  | nil =>
    intro acc hacc u hu
    rw [manualArticlesGo] at hu
    exact hacc u hu
  | cons pr rest ih =>
    obtain ⟨el, sibs⟩ := pr
    intro acc hacc u hu
    simp only [manualArticlesGo] at hu
    split at hu
    · exact hacc u hu
    · refine ih _ ?_ u hu
      intro v hv
      split at hv
      all_goals
        rcases mem_if_append_singleton _ _ _ _ hv with h | h
        · exact hacc v h
        · subst h
          refine ⟨rfl, normalizeL_trimmed _, ?_⟩
          intro t ht
          simp only [Option.some.injEq] at ht
          subst ht
          exact normalizeL_trimmed _

theorem unitsOK_man_art (celex : List Char) (tree : XElem) :
    ∀ u ∈ (extract_manual_structure_articles celex tree).1, unitOK celex u := by
  intro u hu
  exact unitsOK_man_art_go celex _ [] (by intro v hv; simp at hv) u hu

theorem annex_numTitle_trimmed (tt : List Char) :
    pyStrip (match searchAnnexRoman tt with
      | some (g, e) => (g, pyStrip (tt.drop e))
      | none => (([] : List Char), ([] : List Char))).2 =
    (match searchAnnexRoman tt with
      | some (g, e) => (g, pyStrip (tt.drop e))
      | none => (([] : List Char), ([] : List Char))).2 := by
  cases hs : searchAnnexRoman tt with
  | none => simp only [hs]; rfl
  | some ge =>
    obtain ⟨g, e⟩ := ge
    simp only [hs]
    exact pyStrip_idem _

theorem annex_step_title_trimmed (nt2 : List Char) (sibs : List XElem)
    (t1 : List Char) (s1 : List XElem) (hnt : pyStrip nt2 = nt2)
    (heq : (if nt2 = [] then
        (match sibs with
         | [] => none
         | ne :: sibs2 =>
           some (if ne.cls == "NormalCentered" then
               (pyStrip (joinSp (ne.children.map extract_text)), sibs2)
             else (nt2, ne :: sibs2)))
      else some (nt2, sibs)) = some (t1, s1)) :
    pyStrip t1 = t1 := by
  split at heq
  · cases sibs with
    | nil => simp at heq
    | cons ne sibs2 =>
      simp only [Option.some.injEq] at heq
      by_cases hc : (ne.cls == "NormalCentered") = true
      · rw [if_pos hc] at heq
        cases heq
        exact pyStrip_idem _
      · rw [if_neg hc] at heq
        cases heq
        exact hnt
  · simp only [Option.some.injEq] at heq
    cases heq
    exact hnt

theorem unitsOK_man_anx_go (celex : List Char) :
    ∀ (prs : List (XElem × List XElem)) (acc : List TextUnit),
      (∀ u ∈ acc, unitOK celex u) →
      ∀ u ∈ (manualAnnexesGo celex prs acc).1, unitOK celex u := by
  intro prs
  induction prs with
  | nil =>
    intro acc hacc u hu
    rw [manualAnnexesGo] at hu
    exact hacc u hu
  | cons pr rest ih =>
    obtain ⟨el, sibs⟩ := pr
    intro acc hacc u hu
    simp only [manualAnnexesGo] at hu
    split at hu
    · exact hacc u hu
    · rename_i title1 sibs1 heq
      refine ih _ ?_ u hu
      intro v hv
      rcases List.mem_append.mp hv with h | h
      · exact hacc v h
      · simp only [List.mem_singleton] at h
        subst h
        refine ⟨rfl, pyStrip_idem _, ?_⟩
        intro t ht
        simp only [Option.some.injEq] at ht
        subst ht
        exact annex_step_title_trimmed _ sibs _ sibs1
          (annex_numTitle_trimmed (extract_text el)) heq

theorem unitsOK_man_anx (celex : List Char) (tree : XElem) :
    ∀ u ∈ (extract_manual_structure_annexes celex tree).1, unitOK celex u := by
  intro u hu
  exact unitsOK_man_anx_go celex _ [] (by intro v hv; simp at hv) u hu

theorem unitsOK_text_only_go (celex : List Char) (wr wa wn : Bool) :
    ∀ (n : Nat) (ps : List XElem), ps.length ≤ n → ∀ (cnt : Nat) (acc : List TextUnit),
      (∀ u ∈ acc, unitOK celex u) →
      ∀ u ∈ textOnlyGo celex wr wa wn ps cnt acc, unitOK celex u := by
  intro n
  induction n with
  | zero =>
    intro ps hps cnt acc hacc u hu
    have hnil : ps = [] := List.eq_nil_of_length_eq_zero (Nat.le_zero.mp hps)
    subst hnil
    rw [textOnlyGo] at hu
    exact hacc u hu
  | succ n ih =>
    intro ps hps cnt acc hacc u hu
    cases ps with
    | nil =>
      rw [textOnlyGo] at hu
      exact hacc u hu
    | cons p rest =>
      have hrest : rest.length ≤ n := by
        simp only [List.length_cons] at hps
        omega
      simp only [textOnlyGo] at hu
      split at hu
      · refine ih rest hrest _ _ ?_ u hu
        intro v hv
        rcases List.mem_append.mp hv with h | h
        · exact hacc v h
        · simp only [List.mem_singleton] at h
          subst h
          refine ⟨rfl, normalizeL_trimmed _, ?_⟩
          intro t ht
          simp at ht
      · split at hu
        · refine ih _ ?_ _ _ ?_ u hu
          · rw [List.length_drop]
            omega
          · intro v hv
            rcases List.mem_append.mp hv with h | h
            · exact hacc v h
            · simp only [List.mem_singleton] at h
              subst h
              refine ⟨rfl, normalizeL_trimmed _, ?_⟩
              intro t ht
              simp only [Option.some.injEq] at ht
              subst ht
              rfl
        · split at hu
          · refine ih _ ?_ _ _ ?_ u hu
            · rw [List.length_drop]
              omega
            · intro v hv
              rcases List.mem_append.mp hv with h | h
              · exact hacc v h
              · simp only [List.mem_singleton] at h
                subst h
                refine ⟨rfl, normalizeL_trimmed _, ?_⟩
                intro t ht
                simp only [Option.some.injEq] at ht
                subst ht
                exact normalizeL_trimmed _
          · exact ih rest hrest _ _ hacc u hu

theorem unitsOK_text_only (celex : List Char) (wr wa wn : Bool) (tree : XElem) :
    ∀ u ∈ (extract_text_only_units celex wr wa wn tree).1, unitOK celex u := by
  intro u hu
  simp only [extract_text_only_units] at hu
  split at hu
  · simp at hu
  · split at hu
    · simp at hu
    · exact unitsOK_text_only_go celex wr wa wn _ _ (Nat.le_refl _) 0 []
        (by intro v hv; simp at hv) u hu

theorem unitsOK_dispatchRec (celex : List Char) (t : XElem) :
    ∀ u ∈ dispatchRec (resolverExtractors celex) t, unitOK celex u := by
  intro u hu
  simp only [dispatchRec, resolverExtractors] at hu
  split at hu
  · exact unitsOK_std_rec celex t u hu
  · split at hu
    · exact unitsOK_man_rec celex t u hu
    · split at hu
      · exact unitsOK_text_only celex true false false t u hu
      · simp at hu

theorem unitsOK_dispatchArt (celex : List Char) (t : XElem) :
    ∀ u ∈ dispatchArt (resolverExtractors celex) t, unitOK celex u := by
  intro u hu
  simp only [dispatchArt, resolverExtractors] at hu
  split at hu
  · exact unitsOK_std_art celex t u hu
  · split at hu
    · exact unitsOK_man_art celex t u hu
    · split at hu
      · exact unitsOK_text_only celex false true false t u hu
      · simp at hu

theorem unitsOK_dispatchAnx (celex : List Char) (t : XElem) :
    ∀ u ∈ dispatchAnx (resolverExtractors celex) t, unitOK celex u := by
  intro u hu
  simp only [dispatchAnx, resolverExtractors] at hu
  split at hu
  · exact unitsOK_std_anx celex t u hu
  · split at hu
    · exact unitsOK_man_anx celex t u hu
    · split at hu
      · exact unitsOK_text_only celex false false true t u hu
      · simp at hu

theorem unitsOK_get_text_units (C : Collaborators) (celex : List Char)
    (ir ia ian : Bool) (us : List TextUnit)
    (hret : get_text_units (resolverExtractors celex) C celex ir ia ian = Except.ok us) :
    ∀ u ∈ us, unitOK celex u := by
  intro u hu
  simp only [get_text_units] at hret
  split at hret
  · cases hret
    simp at hu
  · revert hret
    cases hp : parseMainTree C celex with
    | none =>
      intro hret
      cases hret
      simp at hu
    | some tree =>
      intro hret
      cases hret
      have hdec :
          u ∈ dispatchRec (resolverExtractors celex) (recitalsTreeFor C celex ir tree) ∨
          u ∈ dispatchArt (resolverExtractors celex) tree ∨
          u ∈ dispatchAnx (resolverExtractors celex) (annexesTreeFor C celex ian tree) := by
        cases ir <;> cases ia <;> cases ian <;> simp at hu <;> tauto
      rcases hdec with h | h | h
      · exact unitsOK_dispatchRec celex _ u h
      · exact unitsOK_dispatchArt celex tree u h
      · exact unitsOK_dispatchAnx celex _ u h

/-! ### C3: normalization status of returned unit fields -/

/-- C3 (amended): every unit `get_text_units` returns has a whitespace-
trimmed text field, and a whitespace-trimmed title when one is present
(`pyStrip`-fixed).  The stronger normalize-fixedness claimed by the spec
fails: Standard-structure article bodies are stripped space-joins of child
texts, which can contain internal double spaces that `normalize_string`
would collapse (see the counterexample). -/
theorem c3_unit_fields_trimmed :
    ∀ (C : Collaborators) (celex : List Char) (ir ia ian : Bool) (us : List TextUnit)
      (u : TextUnit),
      get_text_units (resolverExtractors celex) C celex ir ia ian = Except.ok us →
      u ∈ us →
      pyStrip u.text = u.text ∧ ∀ t, u.title = some t → pyStrip t = t := by
  intro C celex ir ia ian us u hret hu
  exact (unitsOK_get_text_units C celex ir ia ian us hret u hu).2

def c3celex : List Char := "32016R0679".data

/-- A Standard-structure document whose single article has three children
with texts `x`, (empty) and `y`: the space-join of their extracted texts is
`"x  y"`. -/
def c3tree : XElem :=
  XElem.mk "html" "" [] []
    [XElem.mk "div" "" "art_1".data []
      [XElem.mk "span" "" [] "x".data [] [],
       XElem.mk "span" "" [] [] [] [],
       XElem.mk "span" "" [] "y".data [] []] []] []

def c3collabs : Collaborators :=
  { sparqlTitle := fun _ => Except.error ()
    sparqlDate := fun _ => Except.error ()
    sparqlRelations := fun _ => Except.error ()
    metaXml := fun _ => Except.error ()
    fetchXhtml := fun _ => Except.ok (Markup.xmlGood c3tree)
    fetchPlainHtml := fun _ => Except.error ()
    fetchAnnexXhtml := fun _ => Except.error ()
    fetchAnnexPlainHtml := fun _ => Except.error () }

/-- The returned article unit's text `"x  y"` is not a fixed point of
`normalize_string`, refuting the claim that every returned text field has
passed through the normalizer. -/
theorem c3_counterexample :
    get_text_units (resolverExtractors c3celex) c3collabs c3celex false true false =
      Except.ok [⟨c3celex, "article", "1".data, some [], "x  y".data⟩] ∧
    normalize_string ⟨"x  y".data⟩ ≠ ⟨"x  y".data⟩ :=
  ⟨by decide, by decide⟩

theorem c3_witness :
    pyStrip "x  y".data = "x  y".data ∧
    ∀ t, (some ([] : List Char) : Option (List Char)) = some t → pyStrip t = t := by
  have h := c3_unit_fields_trimmed c3collabs c3celex false true false
    [⟨c3celex, "article", "1".data, some [], "x  y".data⟩]
    ⟨c3celex, "article", "1".data, some [], "x  y".data⟩ (by decide) (by decide)
  exact h

/-! ### C10: attribution of returned units -/

def c10celex : List Char := "02016R0679-20210101".data

/-- The consolidated identifier's own markup: a Standard-structure document
with one article. -/
def c10mainTree : XElem :=
  XElem.mk "html" "" [] []
    [XElem.mk "div" "" "art_1".data "Main article.".data [] []] []

/-- The original identifier's markup: a Standard-structure document with one
recital. -/
def c10origTree : XElem :=
  XElem.mk "html" "" [] []
    [XElem.mk "div" "" "rct_1".data "Orig recital.".data [] []] []

def c10collabs : Collaborators :=
  { sparqlTitle := fun _ => Except.error ()
    sparqlDate := fun _ => Except.error ()
    sparqlRelations := fun _ => Except.error ()
    metaXml := fun _ => Except.error ()
    fetchXhtml := fun c =>
      if c = c10celex then Except.ok (Markup.xmlGood c10mainTree)
      else if c = "32016R0679".data then Except.ok (Markup.xmlGood c10origTree)
      else Except.error ()
    fetchPlainHtml := fun _ => Except.error ()
    fetchAnnexXhtml := fun _ => Except.error ()
    fetchAnnexPlainHtml := fun _ => Except.error () }

/-- C10: every unit returned by `get_text_units` carries the resolver's own
identifier in its `celex_id` field; in particular the recitals of a
consolidated text, extracted from the original identifier's fetched markup,
are attributed to the consolidated identifier (`c10collabs` serves those
recitals only under the original identifier `32016R0679`, yet the returned
recital unit names the consolidated identifier). -/
theorem c10_celex_attribution :
    (∀ (C : Collaborators) (celex : List Char) (ir ia ian : Bool) (us : List TextUnit)
        (u : TextUnit),
        get_text_units (resolverExtractors celex) C celex ir ia ian = Except.ok us →
        u ∈ us → u.celex_id = celex) ∧
    (is_consolidated_celex c10celex = true ∧
      c10collabs.fetchXhtml "32016R0679".data = Except.ok (Markup.xmlGood c10origTree) ∧
      get_text_units (resolverExtractors c10celex) c10collabs c10celex true true true =
        Except.ok [⟨c10celex, "recital", "1".data, none, "Orig recital.".data⟩,
                   ⟨c10celex, "article", "1".data, some [], []⟩]) := by
  constructor
  · intro C celex ir ia ian us u hret hu
    exact (unitsOK_get_text_units C celex ir ia ian us hret u hu).1
  · exact ⟨by decide, rfl, by decide⟩

theorem c10_witness :
    (⟨c10celex, "recital", "1".data, none, "Orig recital.".data⟩ : TextUnit).celex_id =
      c10celex :=
  c10_celex_attribution.1 c10collabs c10celex true true true
    [⟨c10celex, "recital", "1".data, none, "Orig recital.".data⟩,
     ⟨c10celex, "article", "1".data, some [], []⟩]
    ⟨c10celex, "recital", "1".data, none, "Orig recital.".data⟩ (by decide) (by decide)
